import Mathlib

/-!
# one-equation: the exact fraction engine, the equation generator and the solution steps

A shallow embedding of `src/equationGenerator.js` and `src/solutionGenerator.js`.

Modelling conventions.
* JavaScript numbers holding integers are `Int`; the arithmetic of the program on them
  (`*`, `+`, `-`, exact `/`, `%`, `Math.abs`) is the arithmetic of `Int`/`Nat`.  Magnitudes beyond
  2^53, where a double stops being exact, are outside the model.
  Negative zero, which compares equal to zero and prints as `0`, is not told apart from zero.
* A `throw new Error(msg)` is `Except.error msg`; a `TypeError` raised by the runtime is an
  error with a fixed message.
* `Math.random()` reads a tape of draws, rationals in `[0, 1)`; see the section on the random
  source.
-/

namespace OneEquation

/-! ## class Fraction -/

/-- The two fields of a `Fraction` object. -/
structure Fraction where
  numerator : Int
  denominator : Int
deriving DecidableEq, Repr

/-- The method `_gcd(a, b)`: `b === 0 ? a : this._gcd(b, a % b)`, on the non-negative integers
it is called with. -/
def Fraction._gcd (a b : Nat) : Nat :=
  if b = 0 then a else Fraction._gcd b (a % b)
termination_by b
decreasing_by exact Nat.mod_lt _ (Nat.pos_of_ne_zero ‹_›)

/-- The method `simplify()`, as a function from the fields before to the fields after. -/
def Fraction.simplify (f : Fraction) : Fraction :=
  if f.numerator = 0 then
    ⟨f.numerator, 1⟩
  else
    let gcd : Int := (Fraction._gcd f.numerator.natAbs f.denominator.natAbs : Nat)
    let numerator := f.numerator / gcd
    let denominator := f.denominator / gcd
    if denominator < 0 then
      ⟨numerator * -1, denominator * -1⟩
    else
      ⟨numerator, denominator⟩

/-- The constructor, `new Fraction(numerator, denominator)` (the spec's `make`): throws on a zero
denominator, otherwise stores the fields and simplifies.  The default `denominator = 1` of the
source is written out by the callers. -/
def Fraction.new (numerator denominator : Int) : Except String Fraction :=
  if denominator = 0 then
    .error "Denominator cannot be zero."
  else
    .ok (Fraction.simplify ⟨numerator, denominator⟩)

/-- The method `add(other)`. -/
def Fraction.add (self other : Fraction) : Except String Fraction :=
  let commonDenominator := self.denominator * other.denominator
  let newNumerator := self.numerator * other.denominator + other.numerator * self.denominator
  Fraction.new newNumerator commonDenominator

/-- The method `subtract(other)`. -/
def Fraction.subtract (self other : Fraction) : Except String Fraction :=
  let commonDenominator := self.denominator * other.denominator
  let newNumerator := self.numerator * other.denominator - other.numerator * self.denominator
  Fraction.new newNumerator commonDenominator

/-- The method `multiply(other)`. -/
def Fraction.multiply (self other : Fraction) : Except String Fraction :=
  Fraction.new (self.numerator * other.numerator) (self.denominator * other.denominator)

/-- The method `divide(other)`. -/
def Fraction.divide (self other : Fraction) : Except String Fraction :=
  if other.numerator = 0 then
    .error "Cannot divide by zero."
  else
    Fraction.new (self.numerator * other.denominator) (self.denominator * other.numerator)

/-- The method `equals(other)`. -/
def Fraction.equals (self other : Fraction) : Bool :=
  decide (self.numerator = other.numerator) && decide (self.denominator = other.denominator)

/-- The rational number a fraction object denotes (not in the source: the yardstick the
arithmetic is measured against). -/
def Fraction.value (f : Fraction) : ℚ := (f.numerator : ℚ) / (f.denominator : ℚ)

/-- Canonical form: positive denominator, lowest terms, and zero stored as 0/1. -/
def Fraction.Canonical (f : Fraction) : Prop :=
  0 < f.denominator ∧ Nat.gcd f.numerator.natAbs f.denominator.natAbs = 1 ∧
    (f.numerator = 0 → f.denominator = 1)

instance (f : Fraction) : Decidable f.Canonical := by
  unfold Fraction.Canonical; infer_instance

/-- The method `toString()`. -/
def Fraction.toString (self : Fraction) : String :=
  if self.denominator = 1 then
    ToString.toString self.numerator
  else if self.numerator = 0 then
    "0"
  else
    ToString.toString self.numerator ++ "/" ++ ToString.toString self.denominator

/-- The method `toEquationString()`: the LaTeX rendering, the minus sign of a negative fraction
in front of `\frac`. -/
def Fraction.toEquationString (self : Fraction) : String :=
  if self.denominator = 1 then
    ToString.toString self.numerator
  else if self.numerator = 0 then
    "0"
  else if self.numerator < 0 then
    "-\\frac\x7b" ++ ToString.toString self.numerator.natAbs ++ "\x7d\x7b" ++
      ToString.toString self.denominator ++ "\x7d"
  else
    "\\frac\x7b" ++ ToString.toString self.numerator ++ "\x7d\x7b" ++
      ToString.toString self.denominator ++ "\x7d"

/-! ## Fraction.fromDecimal

The argument, a finite double, is taken as the rational number it is, and the arithmetic of the
loop is exact.  Two values of the source have no rational counterpart: `h1 / k1` for `k1 = 0`
and `1 / (b - a)` for `b = a`; the theorems on the loop show that `k1` is positive whenever the
quotient is formed and that the loop ends in the iteration in which `b = a`, so neither is
ever read. -/

/-- The locals `h1, h2, k1, k2, b` of the loop of `fromDecimal`. -/
structure Convergents where
  h1 : Int
  h2 : Int
  k1 : Int
  k2 : Int
  b : ℚ
deriving DecidableEq, Repr

/-- The constant `tolerance = 1.0E-6`. -/
def tolerance : ℚ := 1 / 1000000

/-- The body of the `do ... while` loop of `fromDecimal`. -/
def Convergents.next (s : Convergents) : Convergents :=
  let a := ⌊s.b⌋
  ⟨a * s.h1 + s.h2, s.h1, a * s.k1 + s.k2, s.k1, 1 / (s.b - a)⟩

/-- The test of the loop:
`Math.abs(decimal - h1 / k1) > decimal * tolerance && k1 < 10000`. -/
def Convergents.goesOn (decimal : ℚ) (s : Convergents) : Prop :=
  |decimal - (s.h1 : ℚ) / (s.k1 : ℚ)| > decimal * tolerance ∧ s.k1 < 10000

instance (decimal : ℚ) (s : Convergents) : Decidable (s.goesOn decimal) := by
  unfold Convergents.goesOn; infer_instance

/-- The loop `do { ... } while (...)` run for at most `fuel` iterations; `none` when the fuel
is used up before the test fails. -/
def fromDecimalLoop (decimal : ℚ) : Nat → Convergents → Option Convergents
  | 0, _ => none
  | fuel + 1, s =>
    if s.next.goesOn decimal then fromDecimalLoop decimal fuel s.next else some s.next

/-- The static method `Fraction.fromDecimal(decimal)`, the loop given `fuel` iterations;
`Math.sign` of a non-zero number is 1 or -1. -/
def Fraction.fromDecimal (fuel : Nat) (decimal : ℚ) : Option (Except String Fraction) :=
  if decimal = 0 then
    some (Fraction.new 0 1)
  else
    let sign : Int := if 0 < decimal then 1 else -1
    let decimal := |decimal|
    match fromDecimalLoop decimal fuel ⟨1, 0, 0, 1, decimal⟩ with
    | some s => some (Fraction.new (sign * s.h1) s.k1)
    | none => none

/-! ## The random source

`Math.random()` is modelled by a tape: the finite list of the values the next calls return, each
a rational in `[0, 1)` (every double is one).  A computation that asks for a draw when the tape
is used up is `starved`: more draws are needed to tell what it does.  The resampling loops of
the generator consume at least one draw per iteration, so on a finite tape they always stop. -/

/-- How a computation over the tape ends. -/
inductive Run (α : Type) where
  | ok (value : α)
  | throw (msg : String)
  | starved
deriving DecidableEq, Repr

/-- A computation that reads draws from the tape and hands the rest of the tape on. -/
def Gen (α : Type) : Type := List ℚ → Run (α × List ℚ)

def Gen.pure {α : Type} (a : α) : Gen α := fun tape => .ok (a, tape)

def Gen.bind {α β : Type} (x : Gen α) (f : α → Gen β) : Gen β := fun tape =>
  match x tape with
  | .ok (a, rest) => f a rest
  | .throw msg => .throw msg
  | .starved => .starved

instance : Monad Gen where
  pure := Gen.pure
  bind := Gen.bind

/-- A throwing expression inside a computation over the tape. -/
def Gen.ofExcept {α : Type} : Except String α → Gen α
  | .ok a => Gen.pure a
  | .error msg => fun _ => .throw msg

/-- One call of `Math.random()`. -/
def Math.random : Gen ℚ
  | [] => .starved
  | r :: rest => .ok (r, rest)

/-- The function `getRandomInt(min, max)`:
`Math.floor(Math.random() * (max - min + 1)) + min`. -/
def getRandomInt (min max : Int) : Gen Int := do
  let r ← Math.random
  pure (⌊r * ((max - min + 1 : Int) : ℚ)⌋ + min)

/-- The function `getRandomInteger(min, max)`. -/
def getRandomInteger (min max : Int) : Gen Fraction := do
  let n ← getRandomInt min max
  Gen.ofExcept (Fraction.new n 1)

/-- The function `getRandomFraction(min, max, allowInteger)`; `&&` draws only when
`allowInteger` is true. -/
def getRandomFraction (min max : Int) (allowInteger : Bool) : Gen Fraction := do
  let numerator ← getRandomInt min max
  let denominator ← getRandomInt 1 5
  let denominator ← (if allowInteger then do
      let r ← Math.random
      pure (if r < 0.5 then 1 else denominator)
    else pure denominator)
  Gen.ofExcept (Fraction.new numerator denominator)

set_option linter.unusedVariables false in
/-- The loop `while (a.numerator === 0) { a = getRandomInteger(min, max); }`. -/
def whileNumeratorZero (min max : Int) (a : Fraction) (tape : List ℚ) :
    Run (Fraction × List ℚ) :=
  if a.numerator = 0 then
    match h : getRandomInteger min max tape with
    | .ok (next, rest) => whileNumeratorZero min max next rest
    | .throw msg => .throw msg
    | .starved => .starved
  else
    .ok (a, tape)
termination_by tape.length
decreasing_by
  cases tape with
  | nil => simp [getRandomInteger, getRandomInt, Math.random, bind, Gen.bind] at h
  | cons r t =>
    simp only [getRandomInteger, getRandomInt, Math.random, bind, Gen.bind, pure, Gen.pure] at h
    unfold Fraction.new Gen.ofExcept at h
    simp [Gen.pure] at h
    simp [← h.2]

set_option linter.unusedVariables false in
/-- The loop `while (a.equals(c)) { c = getRandomFraction(-5, 5, false); }`. -/
def whileEquals (a c : Fraction) (tape : List ℚ) : Run (Fraction × List ℚ) :=
  if a.equals c then
    match h : getRandomFraction (-5) 5 false tape with
    | .ok (next, rest) => whileEquals a next rest
    | .throw msg => .throw msg
    | .starved => .starved
  else
    .ok (c, tape)
termination_by tape.length
decreasing_by
  cases tape with
  | nil => simp [getRandomFraction, getRandomInt, Math.random, bind, Gen.bind] at h
  | cons r t =>
    cases t with
    | nil =>
      simp [getRandomFraction, getRandomInt, Math.random, bind, Gen.bind, pure, Gen.pure] at h
    | cons r2 t2 =>
      simp only [getRandomFraction, getRandomInt, Math.random, bind, Gen.bind, pure, Gen.pure,
        Bool.false_eq_true, if_false] at h
      unfold Fraction.new Gen.ofExcept at h
      generalize ⌊r2 * ((5 - 1 + 1 : Int) : ℚ)⌋ + 1 = k at h
      by_cases hz : k = 0
      · simp [hz] at h
      · simp [hz, Gen.pure] at h
        obtain ⟨-, rfl⟩ := h
        simp only [List.length_cons]
        omega

/-! ## generateEquation -/

/-- The object `generateEquation` returns: `{ equation, answer }`. -/
structure Equation where
  equation : String
  answer : Fraction
deriving DecidableEq, Repr

/-- The locals of `generateEquation` at its `return`: the coefficients `a, b, c, d` as last
assigned and the operator drawn.  The source does not return them; the model hands them out
next to the equation so that the relation the text encodes can be stated from the coefficients
themselves. -/
inductive Sampled where
  | level1 (a b : Fraction) (op1 : String)
  | level2 (a b : Fraction) (op2 : String)
  | level3 (a b c : Fraction)
  | level4 (a b c d : Fraction)
  | level5 (a b c d : Fraction)
  | invalid
deriving DecidableEq, Repr

/-- The function `generateEquation(level)`, the `switch` written as a chain of tests; the second
component is the record of the locals. -/
def generateEquation (level : Int) : Gen (Equation × Sampled) :=
  if level = 1 then do
    let a ← getRandomInteger (-10) 10
    let b ← getRandomInteger (-10) 10
    let op1 := if (← Math.random) < 0.5 then "+" else "-"
    if op1 = "+" then
      let aStr :=
        if a.numerator < 0 then "(" ++ a.toEquationString ++ ")" else a.toEquationString
      let equation := "x + " ++ aStr ++ " = " ++ b.toEquationString
      let answer ← Gen.ofExcept (b.subtract a)
      pure (⟨equation, answer⟩, .level1 a b op1)
    else
      let aStr :=
        if a.numerator < 0 then "(" ++ a.toEquationString ++ ")" else a.toEquationString
      let equation := "x - " ++ aStr ++ " = " ++ b.toEquationString
      let answer ← Gen.ofExcept (b.add a)
      pure (⟨equation, answer⟩, .level1 a b op1)
  else if level = 2 then do
    let a ← getRandomInteger (-5) 5
    let a ← whileNumeratorZero (-5) 5 a
    let b ← getRandomInteger (-20) 20
    let op2 := if (← Math.random) < 0.5 then "*" else "/"
    if op2 = "*" then
      let equation := a.toEquationString ++ "x = " ++ b.toEquationString
      let answer ← Gen.ofExcept (b.divide a)
      pure (⟨equation, answer⟩, .level2 a b op2)
    else
      let denominator : Int := a.numerator.natAbs
      let equation :=
        "\\frac\x7bx\x7d\x7b" ++ toString denominator ++ "\x7d = " ++ b.toEquationString
      let answer ← Gen.ofExcept (do b.multiply (← Fraction.new denominator 1))
      pure (⟨equation, answer⟩, .level2 a b op2)
  else if level = 3 then do
    let a ← getRandomInteger (-5) 5
    let a ← whileNumeratorZero (-5) 5 a
    let b ← getRandomInteger (-10) 10
    let c ← getRandomInteger (-20) 20
    let absB ← Gen.ofExcept (Fraction.new b.numerator.natAbs b.denominator)
    let equation := a.toEquationString ++ "x " ++ (if b.numerator ≥ 0 then "+" else "-") ++ " " ++
      absB.toEquationString ++ " = " ++ c.toEquationString
    let answer ← Gen.ofExcept (do (← c.subtract b).divide a)
    pure (⟨equation, answer⟩, .level3 a b c)
  else if level = 4 then do
    let a ← getRandomInteger (-5) 5
    let b ← getRandomInteger (-10) 10
    let c ← getRandomInteger (-5) 5
    let d ← getRandomInteger (-10) 10
    let c ← whileEquals a c
    let absB4 ← Gen.ofExcept (Fraction.new b.numerator.natAbs b.denominator)
    let absD ← Gen.ofExcept (Fraction.new d.numerator.natAbs d.denominator)
    let equation := a.toEquationString ++ "x " ++ (if b.numerator ≥ 0 then "+" else "-") ++ " " ++
      absB4.toEquationString ++ " = " ++ c.toEquationString ++ "x " ++
      (if d.numerator ≥ 0 then "+" else "-") ++ " " ++ absD.toEquationString
    let answer ← Gen.ofExcept (do (← d.subtract b).divide (← a.subtract c))
    pure (⟨equation, answer⟩, .level4 a b c d)
  else if level = 5 then do
    let a ← getRandomInteger (-3) 3
    let a ← whileNumeratorZero (-3) 3 a
    let b ← getRandomInteger (-5) 5
    let b ← whileNumeratorZero (-5) 5 b
    let c ← getRandomInteger (-10) 10
    let d ← getRandomInteger (-20) 20
    let absC ← Gen.ofExcept (Fraction.new c.numerator.natAbs c.denominator)
    let equation := a.toEquationString ++ "(" ++ b.toEquationString ++ "x " ++
      (if c.numerator ≥ 0 then "+" else "-") ++ " " ++ absC.toEquationString ++ ") = " ++
      d.toEquationString
    let answer ← Gen.ofExcept (do (← d.subtract (← a.multiply c)).divide (← a.multiply b))
    pure (⟨equation, answer⟩, .level5 a b c d)
  else do
    let equation := "Invalid level"
    let answer ← Gen.ofExcept (Fraction.new 0 1)
    pure (⟨equation, answer⟩, .invalid)

/-! ## Strings and regular expressions of solutionGenerator.js

Strings are handled as lists of characters.  The patterns of the source are ASCII literals,
classes of ASCII characters and their complements, so matching by code point and matching by
UTF-16 code unit (what JavaScript does) find the same substrings. -/

/-- The characters `\s` matches and `trim()` strips: ECMAScript WhiteSpace and LineTerminator. -/
def isWhiteSpace (c : Char) : Bool :=
  let n := c.toNat
  n = 0x09 || n = 0x0A || n = 0x0B || n = 0x0C || n = 0x0D || n = 0x20 || n = 0xA0 ||
    n = 0x1680 || (0x2000 ≤ n && n ≤ 0x200A) || n = 0x2028 || n = 0x2029 || n = 0x202F ||
    n = 0x205F || n = 0x3000 || n = 0xFEFF

/-- The characters `.` matches: all but the line terminators. -/
def isDot (c : Char) : Bool :=
  let n := c.toNat
  !(n = 0x0A || n = 0x0D || n = 0x2028 || n = 0x2029)

/-- The characters `\d` matches. -/
def isDigit (c : Char) : Bool := '0' ≤ c && c ≤ '9'

/-- The method `str.includes(sub)`. -/
def includes (sub : List Char) : List Char → Bool
  | [] => sub.isEmpty
  | c :: cs => sub.isPrefixOf (c :: cs) || includes sub cs

/-- The method `str.split(sep)` for a separator of one character. -/
def split (sep : Char) : List Char → List (List Char)
  | [] => [[]]
  | c :: cs =>
    match split sep cs with
    | [] => if c = sep then [[], []] else [[c]]
    | p :: ps => if c = sep then [] :: p :: ps else (c :: p) :: ps

/-- The method `str.trim()`. -/
def trim (s : List Char) : List Char :=
  ((s.dropWhile isWhiteSpace).reverse.dropWhile isWhiteSpace).reverse

/-- One item of a pattern.  The patterns of the source are sequences of single characters
(literals, classes) and greedy repetitions of one class, some of them capture groups. -/
inductive RegexItem where
  /-- One character of the class: a literal `x`, a class `[+\-]`. -/
  | one (cls : Char → Bool)
  /-- A greedy repetition of the class, at least `min` times: `\s*`, `\d+`. -/
  | many (cls : Char → Bool) (min : Nat)
  /-- A capture group around a greedy repetition: `([^=]+)`, `(.+)`. -/
  | group (cls : Char → Bool) (min : Nat)

/-- A literal character in a pattern. -/
def RegexItem.lit (c : Char) : RegexItem := .one (fun d => d = c)

/-- Greedy repetition with backtracking: take characters of the class as long as possible, then
give them back one at a time until the continuation `k` (called with the text taken and the text
left) succeeds. -/
def repeatGreedy {β : Type} (cls : Char → Bool) (min : Nat)
    (k : List Char → List Char → Option β) : List Char → List Char → Option β
  | taken, [] => if min ≤ taken.length then k taken [] else none
  | taken, c :: cs =>
    if cls c then
      match repeatGreedy cls min k (taken ++ [c]) cs with
      | some r => some r
      | none => if min ≤ taken.length then k taken (c :: cs) else none
    else if min ≤ taken.length then k taken (c :: cs) else none

/-- Match a pattern at the start of the text: the captures in order and the text left after the
match, for the first way to match in backtracking order. -/
def matchHere : List RegexItem → List Char → Option (List (List Char) × List Char)
  | [], s => some ([], s)
  | .one cls :: items, s =>
    match s with
    | [] => none
    | c :: cs => if cls c then matchHere items cs else none
  | .many cls min :: items, s =>
    repeatGreedy cls min (fun _ rest => matchHere items rest) [] s
  | .group cls min :: items, s =>
    repeatGreedy cls min (fun taken rest =>
      match matchHere items rest with
      | some (caps, fin) => some (taken :: caps, fin)
      | none => none) [] s

/-- The result of a successful match: the text before the match, the matched text (`m[0]`), the
captures (`m[1]`, `m[2]`, ...) and the text after the match. -/
structure Match where
  before : List Char
  whole : List Char
  groups : List (List Char)
  after : List Char
deriving DecidableEq, Repr

/-- Capture `i` (from 1) of a match.  Every group of the source's patterns takes part in every
match, so the empty default is never read for them. -/
def Match.group (m : Match) (i : Nat) : List Char := m.groups.getD (i - 1) []

/-- The leftmost match: `str.match(re)` for a pattern without the `g` flag, `none` for `null`. -/
def search (re : List RegexItem) : List Char → List Char → Option Match
  | before, [] =>
    match matchHere re [] with
    | some (caps, rest) => some ⟨before, [], caps, rest⟩
    | none => none
  | before, c :: cs =>
    match matchHere re (c :: cs) with
    | some (caps, rest) =>
      some ⟨before, (c :: cs).take ((c :: cs).length - rest.length), caps, rest⟩
    | none => search re (before ++ [c]) cs

/-- The method `str.match(re)`. -/
def regexMatch (re : List RegexItem) (s : List Char) : Option Match := search re [] s

/-- The method `str.replace(re, '')` for a pattern with the `g` flag: every match, found from
left to right without overlap, is deleted.  `skip` counts the characters of the current match
still to be dropped. -/
def deleteAll (re : List RegexItem) : Nat → List Char → List Char
  | _, [] => []
  | skip + 1, _ :: cs => deleteAll re skip cs
  | 0, c :: cs =>
    match matchHere re (c :: cs) with
    | some (_, rest) =>
      let len := (c :: cs).length - rest.length
      if len = 0 then c :: deleteAll re 0 cs else deleteAll re (len - 1) cs
    | none => c :: deleteAll re 0 cs

/-- The pattern `/([^()]+)\(([^()]+)\)\s*=\s*(.+)/`. -/
def bracketRe : List RegexItem :=
  [.group (fun c => c ≠ '(' && c ≠ ')') 1, .lit '(', .group (fun c => c ≠ '(' && c ≠ ')') 1,
   .lit ')', .many isWhiteSpace 0, .lit '=', .many isWhiteSpace 0, .group isDot 1]

/-- The pattern `/\d+x/`. -/
def coefficientRe : List RegexItem := [.many isDigit 1, .lit 'x']

/-- The pattern `/\\frac{x}/`; the braces, not a quantifier, stand for themselves. -/
def fracXRe : List RegexItem :=
  [.lit '\\', .lit 'f', .lit 'r', .lit 'a', .lit 'c', .lit '\x7b', .lit 'x', .lit '\x7d']

/-- The pattern `/[+\-]\s*\d+/`. -/
def constantRe : List RegexItem :=
  [.one (fun c => c = '+' || c = '-'), .many isWhiteSpace 0, .many isDigit 1]

/-- The pattern `/[+\-]/`. -/
def signRe : List RegexItem := [.one (fun c => c = '+' || c = '-')]

/-- The pattern `/\\frac\{x\}\{([^}]+)\}\s*=\s*(.+)/`. -/
def divisionRe : List RegexItem :=
  [.lit '\\', .lit 'f', .lit 'r', .lit 'a', .lit 'c', .lit '\x7b', .lit 'x', .lit '\x7d',
   .lit '\x7b', .group (fun c => c ≠ '\x7d') 1, .lit '\x7d', .many isWhiteSpace 0, .lit '=',
   .many isWhiteSpace 0, .group isDot 1]

/-- The pattern `/([^x]+)x\s*=\s*(.+)/`. -/
def multiplicationRe : List RegexItem :=
  [.group (fun c => c ≠ 'x') 1, .lit 'x', .many isWhiteSpace 0, .lit '=', .many isWhiteSpace 0,
   .group isDot 1]

/-- The pattern `/x\s*\+\s*([^=]+)\s*=\s*(.+)/`. -/
def additionRe : List RegexItem :=
  [.lit 'x', .many isWhiteSpace 0, .lit '+', .many isWhiteSpace 0, .group (fun c => c ≠ '=') 1,
   .many isWhiteSpace 0, .lit '=', .many isWhiteSpace 0, .group isDot 1]

/-- The pattern `/x\s*-\s*([^=]+)\s*=\s*(.+)/`. -/
def subtractionRe : List RegexItem :=
  [.lit 'x', .many isWhiteSpace 0, .lit '-', .many isWhiteSpace 0, .group (fun c => c ≠ '=') 1,
   .many isWhiteSpace 0, .lit '=', .many isWhiteSpace 0, .group isDot 1]

/-! ## generateSolution -/

/-- One entry of the `steps` array: `{ type, content }`, the type `'text'` or `'math'`. -/
structure Step where
  type : String
  content : String
deriving DecidableEq, Repr

/-- A value in a template literal: `undefined` is rendered as the word. -/
def render : Option (List Char) → String
  | some s => String.mk s
  | none => "undefined"

/-- The `TypeError` of calling a method on `undefined`. -/
def typeError : String := "TypeError: Cannot read properties of undefined"

/-- The test of the second case,
`equationStr.split('=')[0].includes('x') && equationStr.split('=')[1].includes('x')`: the right
operand is evaluated only when the left one is true, and throws when the text has no `=`. -/
def bothSidesHaveX (equationStr : List Char) : Except String Bool :=
  match (split '=' equationStr)[0]? with
  | none => throw typeError
  | some left =>
    if includes ['x'] left then
      match (split '=' equationStr)[1]? with
      | none => throw typeError
      | some right => pure (includes ['x'] right)
    else
      pure false

/-- The steps the bracket case pushes; `inside.split('x')[1]` is `undefined`, and calling
`replace` on it throws, when the text inside the brackets has no `x`. -/
def bracketSteps (steps : List Step) (m : Match) : Except String (List Step) :=
  let a := String.mk (trim (m.group 1))
  let inside := trim (m.group 2)
  let d := String.mk (trim (m.group 3))
  let steps := steps ++
    [⟨"text", "步驟 1: 使用分配律展開括號"⟩,
     ⟨"math", a ++ "(" ++ String.mk inside ++ ") = " ++ d⟩]
  let first := render ((split 'x' inside)[0]?)
  match (split 'x' inside)[1]? with
  | none => throw typeError
  | some s =>
    let second := String.mk (trim (deleteAll signRe 0 s))
    let steps := steps ++
      [⟨"math", a ++ " \\cdot " ++ first ++ "x + " ++ a ++ " \\cdot " ++ second ++ " = " ++ d⟩]
    pure (steps ++
      [⟨"text", "步驟 2: 合併同類項"⟩,
       ⟨"text", "步驟 3: 將常數項移到等號右邊"⟩,
       ⟨"text", "步驟 4: 將 x 的係數移到等號右邊 (兩邊同除以係數)"⟩])

/-- The steps the two-step case pushes. -/
def twoStepSteps (steps : List Step) (equationStr : List Char) : Except String (List Step) :=
  let left := (split '=' equationStr)[0]?
  let right := (split '=' equationStr)[1]?
  let steps := steps ++
    [⟨"text", "步驟 1: 將常數項移到等號右邊"⟩,
     ⟨"math", render left ++ " = " ++ render right⟩]
  match left with
  | none => throw typeError
  | some leftStr =>
    let simplifiedLeft := String.mk (trim (deleteAll constantRe 0 leftStr))
    let constant := regexMatch constantRe leftStr
    let steps :=
      match constant with
      | some m =>
        let newRight :=
          if ['+'].isPrefixOf m.whole then
            render right ++ " - " ++ String.mk (trim (m.whole.drop 1))
          else
            render right ++ " + " ++ String.mk (trim (m.whole.drop 1))
        steps ++ [⟨"math", simplifiedLeft ++ " = " ++ newRight⟩]
      | none => steps
    pure (steps ++ [⟨"text", "步驟 2: 將 x 的係數移到等號右邊 (兩邊同除以係數)"⟩])

/-- The steps the single-step cases (levels 2 and 1) push; nothing in them throws. -/
def singleStepSteps (steps : List Step) (equationStr : List Char) : List Step :=
  if (regexMatch coefficientRe equationStr).isSome ||
      (regexMatch fracXRe equationStr).isSome then
    if includes "\\frac\x7bx\x7d".data equationStr then
      match regexMatch divisionRe equationStr with
      | some m =>
        let a := String.mk (m.group 1)
        let b := String.mk (m.group 2)
        steps ++
          [⟨"text", "步驟 1: 將分母移到等號右邊 (兩邊同乘以分母)"⟩,
           ⟨"math", "\\frac\x7bx\x7d\x7b" ++ a ++ "\x7d = " ++ b⟩,
           ⟨"math", "x = " ++ b ++ " \\times " ++ a⟩]
      | none => steps
    else
      match regexMatch multiplicationRe equationStr with
      | some m =>
        let a := String.mk (trim (m.group 1))
        let b := String.mk (trim (m.group 2))
        steps ++
          [⟨"text", "步驟 1: 將 x 的係數移到等號右邊 (兩邊同除以係數)"⟩,
           ⟨"math", a ++ "x = " ++ b⟩,
           ⟨"math", "x = \\frac\x7b" ++ b ++ "\x7d\x7b" ++ a ++ "\x7d"⟩]
      | none => steps
  else
    if includes ['+'] equationStr then
      match regexMatch additionRe equationStr with
      | some m =>
        let a := String.mk (trim (m.group 1))
        let b := String.mk (trim (m.group 2))
        steps ++
          [⟨"text", "步驟 1: 將常數項移到等號右邊 (兩邊同減)"⟩,
           ⟨"math", "x + " ++ a ++ " = " ++ b⟩,
           ⟨"math", "x = " ++ b ++ " - " ++ a⟩]
      | none => steps
    else if includes ['-'] equationStr then
      match regexMatch subtractionRe equationStr with
      | some m =>
        let a := String.mk (trim (m.group 1))
        let b := String.mk (trim (m.group 2))
        steps ++
          [⟨"text", "步驟 1: 將常數項移到等號右邊 (兩邊同加)"⟩,
           ⟨"math", "x - " ++ a ++ " = " ++ b⟩,
           ⟨"math", "x = " ++ b ++ " + " ++ a⟩]
      | none => steps
    else steps

/-- The `if ... else if ...` chain of `generateSolution`: the steps after the case that applies
has pushed its own, the tests made in the order of the source. -/
def caseSteps (steps : List Step) (equationStr : List Char) : Except String (List Step) :=
  if includes ['('] equationStr && includes [')'] equationStr then
    match regexMatch bracketRe equationStr with
    | some m => bracketSteps steps m
    | none => pure steps
  else
    match bothSidesHaveX equationStr with
    | .error e => throw e
    | .ok true =>
      let left := (split '=' equationStr)[0]?
      let right := (split '=' equationStr)[1]?
      pure (steps ++
        [⟨"text", "步驟 1: 將含 x 的項移到等號左邊"⟩,
         ⟨"math", render left ++ " = " ++ render right⟩,
         ⟨"text", "步驟 2: 將常數項移到等號右邊"⟩,
         ⟨"text", "步驟 3: 合併同類項"⟩,
         ⟨"text", "步驟 4: 將 x 的係數移到等號右邊 (兩邊同除以係數)"⟩])
    | .ok false =>
      if (includes ['+'] equationStr || includes ['-'] equationStr) &&
          ((regexMatch coefficientRe equationStr).isSome ||
            (regexMatch fracXRe equationStr).isSome) then
        twoStepSteps steps equationStr
      else
        pure (singleStepSteps steps equationStr)

/-- The function `generateSolution(equationObj)`: the two opening steps, the steps of the case
that applies, the two closing steps.  A `TypeError` thrown on the way ends the call without a
result. -/
def generateSolution (equationObj : Equation) : Except String (List Step) :=
  let equationStr := equationObj.equation.data
  let finalAnswer := equationObj.answer
  let steps : List Step :=
    [⟨"text", "原始方程式:"⟩, ⟨"math", String.mk equationStr⟩]
  match caseSteps steps equationStr with
  | .error e => throw e
  | .ok steps =>
    pure (steps ++
      [⟨"text", "最終答案:"⟩,
       ⟨"math", "x = " ++ finalAnswer.toEquationString⟩])

/-! ## Vocabulary of the statements -/

/-- Every draw on the tape is a value `Math.random()` can return: a number in `[0, 1)`. -/
def ValidTape (tape : List ℚ) : Prop := ∀ r ∈ tape, 0 ≤ r ∧ r < 1

instance (tape : List ℚ) : Decidable (ValidTape tape) := by
  unfold ValidTape; infer_instance

/-- On this tape the computation does not throw, and when it returns, the value satisfies `P`
and the rest of the tape is handed on intact. -/
def Gen.Ensures {α : Type} (x : Gen α) (tape : List ℚ) (P : α → Prop) : Prop :=
  match x tape with
  | .ok (a, rest) => P a ∧ ValidTape rest
  | .throw _ => False
  | .starved => True

/-- The level whose `case` assigned the locals. -/
def Sampled.level : Sampled → Int
  | .level1 _ _ _ => 1
  | .level2 _ _ _ => 2
  | .level3 _ _ _ => 3
  | .level4 _ _ _ _ => 4
  | .level5 _ _ _ _ => 5
  | .invalid => 0

/-- The relation the equation text encodes, read off the coefficients, at the value `x`:
level 1 `x + a = b` or `x - a = b`, level 2 `a x = b` or `x / |a| = b`, level 3 `a x + b = c`,
level 4 `a x + b = c x + d`, level 5 `a (b x + c) = d`. -/
def Sampled.Satisfied : Sampled → ℚ → Prop
  | .level1 a b op1, x =>
    (op1 = "+" ∧ x + a.value = b.value) ∨ (op1 = "-" ∧ x - a.value = b.value)
  | .level2 a b op2, x =>
    (op2 = "*" ∧ a.value * x = b.value) ∨ (op2 = "/" ∧ x / |a.value| = b.value)
  | .level3 a b c, x => a.value * x + b.value = c.value
  | .level4 a b c d, x => a.value * x + b.value = c.value * x + d.value
  | .level5 a b c d, x => a.value * (b.value * x + c.value) = d.value
  | .invalid, _ => False

instance (s : Sampled) (x : ℚ) : Decidable (s.Satisfied x) := by
  cases s <;> unfold Sampled.Satisfied <;> infer_instance

/-- The divisors `generateEquation` passes to `divide` are not the zero value: `a` at levels 2
and 3, `a.subtract(c)` at level 4, `a.multiply(b)` at level 5. -/
def Sampled.DivisorsNonZero : Sampled → Prop
  | .level1 _ _ _ => True
  | .level2 a _ _ => a.numerator ≠ 0
  | .level3 a _ _ => a.numerator ≠ 0
  | .level4 a _ c _ => a ≠ c ∧ ∃ r, a.subtract c = .ok r ∧ r.numerator ≠ 0
  | .level5 a b _ _ =>
    a.numerator ≠ 0 ∧ b.numerator ≠ 0 ∧ ∃ r, a.multiply b = .ok r ∧ r.numerator ≠ 0
  | .invalid => True

/-- What is known of a coefficient drawn by `getRandomInteger(min, max)`. -/
def Fraction.IsIntegerIn (min max : Int) (a : Fraction) : Prop :=
  a.denominator = 1 ∧ min ≤ a.numerator ∧ a.numerator ≤ max


/-- The cases of the `if ... else if ...` chain of `generateSolution`, in the order tested:
the bracket case (written for level 5), the case of `x` on both sides (level 4), the two-step
case (level 3), the single-step multiplicative case (level 2) and the single-step additive
case (level 1). -/
inductive SolutionCase where
  | bracket
  | twoSided
  | twoStep
  | singleMultiplicative
  | singleAdditive
deriving DecidableEq, Repr

/-- The case the chain of tests of `generateSolution` selects for a text: the tests of
`caseSteps` and of `singleStepSteps`, in their order, without the steps. -/
def classify (equationStr : List Char) : Except String SolutionCase :=
  if includes ['('] equationStr && includes [')'] equationStr then
    pure .bracket
  else
    match bothSidesHaveX equationStr with
    | .error e => throw e
    | .ok true => pure .twoSided
    | .ok false =>
      if (includes ['+'] equationStr || includes ['-'] equationStr) &&
          ((regexMatch coefficientRe equationStr).isSome ||
            (regexMatch fracXRe equationStr).isSome) then
        pure .twoStep
      else if (regexMatch coefficientRe equationStr).isSome ||
          (regexMatch fracXRe equationStr).isSome then
        pure .singleMultiplicative
      else
        pure .singleAdditive

/-- The characters a rendered number is made of: digits, the minus sign and the characters of
`\frac{}{}`. -/
def plainChar (c : Char) : Bool :=
  isDigit c || c = '-' || c = '\\' || c = 'f' || c = 'r' || c = 'a' || c = 'c' ||
    c = '\x7b' || c = '\x7d'

/-- A text made of the characters of rendered numbers only. -/
def Plain (s : List Char) : Prop := ∀ c ∈ s, plainChar c = true

instance (s : List Char) : Decidable (Plain s) := by
  unfold Plain; infer_instance

/-- What is known of the coefficient `c` of level 4 when the resampling loop is left: it is the
reduced form of a numerator from -5 to 5 over a denominator from 1 to 5. -/
def Fraction.IsFractionIn5 (c : Fraction) : Prop :=
  ∃ n d : Int, -5 ≤ n ∧ n ≤ 5 ∧ 1 ≤ d ∧ d ≤ 5 ∧ c = Fraction.simplify ⟨n, d⟩


/-- What holds of the locals whenever the body of the loop is entered, for the argument
`decimal` (already non-negative): `decimal` is `(b h1 + h2) / (b k1 + k2)`, the determinant
`h1 k2 - h2 k1` is 1 or -1, `k1` is below 10000, and either the locals are the initial ones
(`k1 = 0`, `k2 = 1`, `b > 0`) or `k1 > 0`, `k2 ≥ 0` and `b > 1`. -/
def Convergents.AtLoopHead (decimal : ℚ) (s : Convergents) : Prop :=
  decimal * (s.b * s.k1 + s.k2) = s.b * s.h1 + s.h2 ∧
  (s.h1 * s.k2 - s.h2 * s.k1 = 1 ∨ s.h1 * s.k2 - s.h2 * s.k1 = -1) ∧
  s.k1 < 10000 ∧
  ((s.k1 = 0 ∧ s.k2 = 1 ∧ 0 < s.b) ∨ (0 < s.k1 ∧ 0 ≤ s.k2 ∧ 1 < s.b))

deriving instance DecidableEq for Except

/-! ## Lemmas on the fraction engine -/

theorem Fraction.gcd_eq (a b : Nat) : Fraction._gcd a b = Nat.gcd a b := by
  induction b using Nat.strong_induction_on generalizing a with
  | _ b ih =>
    unfold Fraction._gcd
    by_cases hb : b = 0
    · simp [hb]
    · rw [if_neg hb, ih (a % b) (Nat.mod_lt _ (Nat.pos_of_ne_zero hb)) b]
      rw [Nat.gcd_comm b (a % b), Nat.gcd_comm a b]
      exact (Nat.gcd_rec b a).symm

theorem Fraction.simplify_spec (n d : Int) (hd : d ≠ 0) :
    (Fraction.simplify ⟨n, d⟩).Canonical ∧
      (Fraction.simplify ⟨n, d⟩).numerator * d = n * (Fraction.simplify ⟨n, d⟩).denominator := by
  unfold Fraction.simplify
  by_cases hn : n = 0
  · subst hn
    simp [Fraction.Canonical]
  · simp only [hn, if_false, Fraction.gcd_eq]
    have hg : (Nat.gcd n.natAbs d.natAbs) = Int.gcd n d := rfl
    rw [hg]
    have hpos : 0 < Int.gcd n d := Int.gcd_pos_of_ne_zero_left _ hn
    have hcop : Int.gcd (n / Int.gcd n d) (d / Int.gcd n d) = 1 :=
      Int.gcd_div_gcd_div_gcd hpos
    have hn' : n / (Int.gcd n d : Int) * (Int.gcd n d : Int) = n :=
      Int.ediv_mul_cancel (Int.gcd_dvd_left)
    have hd' : d / (Int.gcd n d : Int) * (Int.gcd n d : Int) = d :=
      Int.ediv_mul_cancel (Int.gcd_dvd_right)
    generalize n / (Int.gcd n d : Int) = n' at *
    generalize d / (Int.gcd n d : Int) = d' at *
    have hd0 : d' ≠ 0 := by
      rintro rfl
      simp at hd'
      exact hd hd'.symm
    have hn0 : n' ≠ 0 := by
      rintro rfl
      simp at hn'
      exact hn hn'.symm
    have hcop' : Nat.gcd n'.natAbs d'.natAbs = 1 := hcop
    have hval : n' * d = n * d' := by
      calc n' * d = n' * (d' * (Int.gcd n d : Int)) := by rw [hd']
        _ = (n' * (Int.gcd n d : Int)) * d' := by ring
        _ = n * d' := by rw [hn']
    by_cases hlt : d' < 0
    · simp only [hlt, if_true, Fraction.Canonical]
      refine ⟨⟨by omega, ?_, ?_⟩, ?_⟩
      · simpa using hcop'
      · intro h; exfalso; omega
      · linarith
    · simp only [hlt, if_false, Fraction.Canonical]
      refine ⟨⟨by omega, hcop', ?_⟩, hval⟩
      intro h; exact absurd h hn0

theorem Fraction.Canonical.eq_of_cross {a b : Fraction} (ha : a.Canonical) (hb : b.Canonical)
    (h : a.numerator * b.denominator = b.numerator * a.denominator) : a = b := by
  obtain ⟨an, ad⟩ := a
  obtain ⟨bn, bd⟩ := b
  obtain ⟨ha1, ha2, -⟩ := ha
  obtain ⟨hb1, hb2, -⟩ := hb
  simp only at ha1 ha2 hb1 hb2 h
  have h1 : (an / ad : ℚ) = (bn / bd : ℚ) := by
    rw [div_eq_div_iff (by exact_mod_cast ha1.ne') (by exact_mod_cast hb1.ne')]
    exact_mod_cast h
  have e1 := Rat.num_div_eq_of_coprime ha1 ha2
  have e2 := Rat.den_div_eq_of_coprime ha1 ha2
  have e3 := Rat.num_div_eq_of_coprime hb1 hb2
  have e4 := Rat.den_div_eq_of_coprime hb1 hb2
  rw [h1] at e1 e2
  have : an = bn := by rw [← e1, e3]
  have : ad = bd := by rw [← e2, e4]
  simp [*]

theorem Fraction.new_ok (n d : Int) (hd : d ≠ 0) :
    Fraction.new n d = .ok (Fraction.simplify ⟨n, d⟩) := by
  simp [Fraction.new, hd]

theorem Fraction.value_of_cross {r : Fraction} {n d : Int} (hr : r.denominator ≠ 0) (hd : d ≠ 0)
    (h : r.numerator * d = n * r.denominator) : r.value = (n : ℚ) / (d : ℚ) := by
  unfold Fraction.value
  rw [div_eq_div_iff (by exact_mod_cast hr) (by exact_mod_cast hd)]
  exact_mod_cast h

theorem Fraction.Canonical.den_ne_zero {a : Fraction} (ha : a.Canonical) : a.denominator ≠ 0 :=
  ha.1.ne'

theorem Fraction.Canonical.eq_of_value {a b : Fraction} (ha : a.Canonical) (hb : b.Canonical)
    (h : a.value = b.value) : a = b := by
  apply Fraction.Canonical.eq_of_cross ha hb
  unfold Fraction.value at h
  rw [div_eq_div_iff (by exact_mod_cast ha.den_ne_zero) (by exact_mod_cast hb.den_ne_zero)] at h
  exact_mod_cast h

theorem Fraction.equals_iff (a b : Fraction) : a.equals b = true ↔ a = b := by
  obtain ⟨an, ad⟩ := a
  obtain ⟨bn, bd⟩ := b
  simp [Fraction.equals]

/-- What a successful construction gives: the canonical fraction of the value `n / d`. -/
theorem Fraction.new_spec (n d : Int) (hd : d ≠ 0) :
    ∃ f, Fraction.new n d = .ok f ∧ f.Canonical ∧ f.numerator * d = n * f.denominator ∧
      f.value = (n : ℚ) / (d : ℚ) := by
  obtain ⟨hc, hv⟩ := Fraction.simplify_spec n d hd
  exact ⟨_, Fraction.new_ok n d hd, hc, hv, Fraction.value_of_cross hc.den_ne_zero hd hv⟩

/-! ## The fraction engine: construction, equality, arithmetic -/

/-- C2: for non-zero denominators both constructions succeed, and `equals` on the two results is
true exactly when `n1 * d2 = n2 * d1`, that is when the two inputs denote the same rational. -/
theorem equals_new_iff_cross (n1 d1 n2 d2 : Int) (h1 : d1 ≠ 0) (h2 : d2 ≠ 0) :
    ∃ f1 f2, Fraction.new n1 d1 = .ok f1 ∧ Fraction.new n2 d2 = .ok f2 ∧
      (f1.equals f2 = true ↔ n1 * d2 = n2 * d1) := by
  obtain ⟨f1, e1, c1, -, v1⟩ := Fraction.new_spec n1 d1 h1
  obtain ⟨f2, e2, c2, -, v2⟩ := Fraction.new_spec n2 d2 h2
  refine ⟨f1, f2, e1, e2, ?_⟩
  have hq : ((n1 : ℚ) / d1 = (n2 : ℚ) / d2) ↔ n1 * d2 = n2 * d1 := by
    rw [div_eq_div_iff (by exact_mod_cast h1) (by exact_mod_cast h2)]
    norm_cast
  rw [Fraction.equals_iff, ← hq, ← v1, ← v2]
  exact ⟨fun h => by rw [h], fun h => Fraction.Canonical.eq_of_value c1 c2 h⟩

/-- Witness for C2: the user answer 8/2 is accepted for the stored answer 4/1. -/
theorem equals_new_iff_cross_witness :
    ∃ f1 f2, Fraction.new 8 2 = .ok f1 ∧ Fraction.new 4 1 = .ok f2 ∧
      (f1.equals f2 = true ↔ (8 : Int) * 1 = 4 * 2) :=
  equals_new_iff_cross 8 2 4 1 (by decide) (by decide)

/-- C3: for `d ≠ 0` the constructor returns the reduced canonical form `(p, q)` of `n / d`:
`q > 0`, `gcd(|p|, q) = 1`, `p * d = n * q`, and for `n = 0` the result is exactly `(0, 1)`. -/
theorem new_reduced_canonical (n d : Int) (hd : d ≠ 0) :
    ∃ f, Fraction.new n d = .ok f ∧ 0 < f.denominator ∧
      Nat.gcd f.numerator.natAbs f.denominator.natAbs = 1 ∧
      f.numerator * d = n * f.denominator ∧ (n = 0 → f = ⟨0, 1⟩) := by
  obtain ⟨f, e, c, hv, -⟩ := Fraction.new_spec n d hd
  refine ⟨f, e, c.1, c.2.1, hv, ?_⟩
  rintro rfl
  rw [Fraction.new_ok 0 d hd] at e
  injection e with e
  rw [← e]
  simp [Fraction.simplify]

/-- Witness for C3 at `new Fraction(6, -4)`. -/
theorem new_reduced_canonical_witness :
    ∃ f, Fraction.new 6 (-4) = .ok f ∧ 0 < f.denominator ∧
      Nat.gcd f.numerator.natAbs f.denominator.natAbs = 1 ∧
      f.numerator * (-4) = 6 * f.denominator ∧ ((6 : Int) = 0 → f = ⟨0, 1⟩) :=
  new_reduced_canonical 6 (-4) (by decide)

theorem Fraction.add_spec (a b : Fraction) (ha : a.Canonical) (hb : b.Canonical) :
    ∃ r, a.add b = .ok r ∧ r.Canonical ∧ r.value = a.value + b.value := by
  have hda : (a.denominator : ℚ) ≠ 0 := by exact_mod_cast ha.den_ne_zero
  have hdb : (b.denominator : ℚ) ≠ 0 := by exact_mod_cast hb.den_ne_zero
  obtain ⟨r, e, c, -, v⟩ := Fraction.new_spec
    (a.numerator * b.denominator + b.numerator * a.denominator) (a.denominator * b.denominator)
    (mul_ne_zero ha.den_ne_zero hb.den_ne_zero)
  refine ⟨r, e, c, ?_⟩
  rw [v]
  unfold Fraction.value
  push_cast
  field_simp

theorem Fraction.subtract_spec (a b : Fraction) (ha : a.Canonical) (hb : b.Canonical) :
    ∃ r, a.subtract b = .ok r ∧ r.Canonical ∧ r.value = a.value - b.value := by
  have hda : (a.denominator : ℚ) ≠ 0 := by exact_mod_cast ha.den_ne_zero
  have hdb : (b.denominator : ℚ) ≠ 0 := by exact_mod_cast hb.den_ne_zero
  obtain ⟨r, e, c, -, v⟩ := Fraction.new_spec
    (a.numerator * b.denominator - b.numerator * a.denominator) (a.denominator * b.denominator)
    (mul_ne_zero ha.den_ne_zero hb.den_ne_zero)
  refine ⟨r, e, c, ?_⟩
  rw [v]
  unfold Fraction.value
  push_cast
  field_simp
  ring

theorem Fraction.multiply_spec (a b : Fraction) (ha : a.Canonical) (hb : b.Canonical) :
    ∃ r, a.multiply b = .ok r ∧ r.Canonical ∧ r.value = a.value * b.value := by
  have hda : (a.denominator : ℚ) ≠ 0 := by exact_mod_cast ha.den_ne_zero
  have hdb : (b.denominator : ℚ) ≠ 0 := by exact_mod_cast hb.den_ne_zero
  obtain ⟨r, e, c, -, v⟩ := Fraction.new_spec
    (a.numerator * b.numerator) (a.denominator * b.denominator)
    (mul_ne_zero ha.den_ne_zero hb.den_ne_zero)
  refine ⟨r, e, c, ?_⟩
  rw [v]
  unfold Fraction.value
  push_cast
  field_simp

theorem Fraction.divide_ok (a b : Fraction) (ha : a.Canonical) (hb : b.numerator ≠ 0) :
    ∃ r, a.divide b = .ok r ∧ r.Canonical ∧
      r.numerator * (a.denominator * b.numerator) = a.numerator * b.denominator * r.denominator ∧
      r.value = ((a.numerator * b.denominator : Int) : ℚ) / (a.denominator * b.numerator : Int) := by
  obtain ⟨r, e, c, hv, v⟩ := Fraction.new_spec
    (a.numerator * b.denominator) (a.denominator * b.numerator)
    (mul_ne_zero ha.den_ne_zero hb)
  refine ⟨r, ?_, c, hv, v⟩
  simp only [Fraction.divide, hb, if_false]
  exact e

theorem Fraction.divide_value (a b : Fraction) (ha : a.Canonical) (hb : b.Canonical)
    (hn : b.numerator ≠ 0) :
    ((a.numerator * b.denominator : Int) : ℚ) / (a.denominator * b.numerator : Int)
      = a.value / b.value := by
  have hda : (a.denominator : ℚ) ≠ 0 := by exact_mod_cast ha.den_ne_zero
  have hdb : (b.denominator : ℚ) ≠ 0 := by exact_mod_cast hb.den_ne_zero
  have hnb : (b.numerator : ℚ) ≠ 0 := by exact_mod_cast hn
  unfold Fraction.value
  push_cast
  field_simp

/-- C9: the constructor throws the zero-denominator error if and only if `d = 0`; so
`new Fraction(0, 0)` throws and `new Fraction(0, d)` with `d ≠ 0` returns 0/1. -/
theorem new_throws_iff_zero_denominator (n d : Int) :
    ((∃ e, Fraction.new n d = .error e) ↔ d = 0) ∧
    (Fraction.new n d = .error "Denominator cannot be zero." ↔ d = 0) ∧
    Fraction.new 0 0 = .error "Denominator cannot be zero." ∧
    Fraction.new 0 d = if d = 0 then .error "Denominator cannot be zero." else .ok ⟨0, 1⟩ := by
  by_cases hd : d = 0
  · subst hd
    simp [Fraction.new]
  · simp [Fraction.new, hd, Fraction.simplify]

/-- C10: reduction is idempotent: constructing again from the numerator and denominator of
`new Fraction(n, d)` returns the same numerator and the same denominator. -/
theorem new_idempotent (n d : Int) (hd : d ≠ 0) :
    ∃ f, Fraction.new n d = .ok f ∧ Fraction.new f.numerator f.denominator = .ok f := by
  obtain ⟨f, e, c, -, -⟩ := Fraction.new_spec n d hd
  obtain ⟨g, eg, cg, hg, -⟩ := Fraction.new_spec f.numerator f.denominator c.den_ne_zero
  refine ⟨f, e, ?_⟩
  rw [eg, Fraction.Canonical.eq_of_cross cg c hg]

/-- Witness for C10 at `new Fraction(-12, -18)`, which is 2/3. -/
theorem new_idempotent_witness :
    Fraction.new (-12) (-18) = .ok ⟨2, 3⟩ ∧
    ∃ f, Fraction.new (-12) (-18) = .ok f ∧ Fraction.new f.numerator f.denominator = .ok f :=
  ⟨by decide!, new_idempotent (-12) (-18) (by decide)⟩

/-! ## Lemmas on computations over the tape -/

theorem ValidTape.tail {r : ℚ} {tape : List ℚ} (h : ValidTape (r :: tape)) : ValidTape tape :=
  fun x hx => h x (List.mem_cons_of_mem _ hx)

theorem ValidTape.head {r : ℚ} {tape : List ℚ} (h : ValidTape (r :: tape)) : 0 ≤ r ∧ r < 1 :=
  h r (List.mem_cons_self _ _)

theorem Gen.Ensures.bind {α β : Type} {x : Gen α} {f : α → Gen β} {tape : List ℚ}
    {P : α → Prop} {Q : β → Prop} (hx : x.Ensures tape P)
    (hf : ∀ a rest, P a → ValidTape rest → (f a).Ensures rest Q) :
    (x >>= f).Ensures tape Q := by
  unfold Gen.Ensures at hx ⊢
  show match Gen.bind x f tape with
    | .ok (a, rest) => Q a ∧ ValidTape rest
    | .throw _ => False
    | .starved => True
  unfold Gen.bind
  cases hxt : x tape with
  | ok v =>
    obtain ⟨a, rest⟩ := v
    rw [hxt] at hx
    exact hf a rest hx.1 hx.2
  | throw m => rw [hxt] at hx; exact hx.elim
  | starved => trivial

theorem Gen.Ensures.pure {α : Type} {a : α} {tape : List ℚ} {P : α → Prop}
    (hP : P a) (hv : ValidTape tape) : (Pure.pure a : Gen α).Ensures tape P := by
  show match Gen.pure a tape with
    | .ok (a, rest) => P a ∧ ValidTape rest
    | .throw _ => False
    | .starved => True
  exact ⟨hP, hv⟩

theorem Gen.Ensures.ofExcept {α : Type} {e : Except String α} {a : α} {tape : List ℚ}
    {P : α → Prop} (he : e = .ok a) (hP : P a) (hv : ValidTape tape) :
    (Gen.ofExcept e).Ensures tape P := by
  subst he
  exact ⟨hP, hv⟩

theorem Gen.Ensures.mono {α : Type} {x : Gen α} {tape : List ℚ} {P Q : α → Prop}
    (hx : x.Ensures tape P) (h : ∀ a, P a → Q a) : x.Ensures tape Q := by
  unfold Gen.Ensures at hx ⊢
  cases hxt : x tape with
  | ok v =>
    obtain ⟨a, rest⟩ := v
    rw [hxt] at hx
    exact ⟨h a hx.1, hx.2⟩
  | throw m => rw [hxt] at hx; exact hx.elim
  | starved => trivial

theorem Gen.Ensures.not_throw {α : Type} {x : Gen α} {tape : List ℚ} {P : α → Prop}
    (hx : x.Ensures tape P) (msg : String) : x tape ≠ .throw msg := by
  intro h
  unfold Gen.Ensures at hx
  rw [h] at hx
  exact hx

theorem Gen.Ensures.of_ok {α : Type} {x : Gen α} {tape rest : List ℚ} {P : α → Prop} {a : α}
    (hx : x.Ensures tape P) (h : x tape = .ok (a, rest)) : P a ∧ ValidTape rest := by
  unfold Gen.Ensures at hx
  rw [h] at hx
  exact hx

theorem random_ensures (tape : List ℚ) (hv : ValidTape tape) :
    Math.random.Ensures tape (fun r => 0 ≤ r ∧ r < 1) := by
  cases tape with
  | nil => trivial
  | cons r t => exact ⟨hv.head, hv.tail⟩

theorem getRandomInt_ensures (min max : Int) (hmm : min ≤ max) (tape : List ℚ)
    (hv : ValidTape tape) :
    (getRandomInt min max).Ensures tape (fun k => min ≤ k ∧ k ≤ max) := by
  unfold getRandomInt
  refine Gen.Ensures.bind (random_ensures tape hv) ?_
  intro r rest hr hrest
  refine Gen.Ensures.pure ?_ hrest
  have hpos : (0 : ℚ) < ((max - min + 1 : Int) : ℚ) := by
    have : (0 : Int) < max - min + 1 := by omega
    exact_mod_cast this
  have h0 : 0 ≤ ⌊r * ((max - min + 1 : Int) : ℚ)⌋ :=
    Int.floor_nonneg.mpr (mul_nonneg hr.1 hpos.le)
  have h1 : ⌊r * ((max - min + 1 : Int) : ℚ)⌋ < max - min + 1 := by
    rw [Int.floor_lt]
    calc r * ((max - min + 1 : Int) : ℚ) < 1 * ((max - min + 1 : Int) : ℚ) :=
          mul_lt_mul_of_pos_right hr.2 hpos
      _ = ((max - min + 1 : Int) : ℚ) := one_mul _
  constructor <;> omega

theorem Fraction.new_one (n : Int) : Fraction.new n 1 = .ok ⟨n, 1⟩ := by
  obtain ⟨f, e, c, hv, -⟩ := Fraction.new_spec n 1 one_ne_zero
  rw [e]
  have hc : Fraction.Canonical ⟨n, 1⟩ := by
    refine ⟨by simp, by simp, fun _ => rfl⟩
  rw [Fraction.Canonical.eq_of_cross c hc (by simpa using hv)]

theorem Fraction.IsIntegerIn.canonical {min max : Int} {a : Fraction}
    (h : a.IsIntegerIn min max) : a.Canonical := by
  obtain ⟨n, d⟩ := a
  obtain ⟨h1, -, -⟩ := h
  simp only at h1
  subst h1
  exact ⟨by simp, by simp, fun _ => rfl⟩

theorem getRandomInteger_ensures (min max : Int) (hmm : min ≤ max) (tape : List ℚ)
    (hv : ValidTape tape) :
    (getRandomInteger min max).Ensures tape (Fraction.IsIntegerIn min max) := by
  unfold getRandomInteger
  refine Gen.Ensures.bind (getRandomInt_ensures min max hmm tape hv) ?_
  intro k rest hk hrest
  exact Gen.Ensures.ofExcept (Fraction.new_one k) ⟨rfl, hk.1, hk.2⟩ hrest

theorem getRandomInteger_nil (min max : Int) : getRandomInteger min max [] = .starved := rfl

theorem getRandomInteger_cons (min max : Int) (r : ℚ) (t : List ℚ) :
    getRandomInteger min max (r :: t) =
      .ok (⟨⌊r * ((max - min + 1 : Int) : ℚ)⌋ + min, 1⟩, t) := by
  simp only [getRandomInteger, getRandomInt, bind, Gen.bind, Math.random, pure, Gen.pure,
    Fraction.new_one, Gen.ofExcept]

theorem whileNumeratorZero_nil (min max : Int) (a : Fraction) :
    whileNumeratorZero min max a [] = if a.numerator = 0 then .starved else .ok (a, []) := by
  rw [whileNumeratorZero]
  split
  · split
    · rename_i h; rw [getRandomInteger_nil] at h; cases h
    · rename_i h; rw [getRandomInteger_nil] at h; cases h
    · rfl
  · rfl

theorem whileNumeratorZero_cons (min max : Int) (a : Fraction) (r : ℚ) (t : List ℚ) :
    whileNumeratorZero min max a (r :: t) =
      if a.numerator = 0 then
        whileNumeratorZero min max ⟨⌊r * ((max - min + 1 : Int) : ℚ)⌋ + min, 1⟩ t
      else .ok (a, r :: t) := by
  rw [whileNumeratorZero]
  split
  · split
    · rename_i h; rw [getRandomInteger_cons] at h; cases h; rfl
    · rename_i h; rw [getRandomInteger_cons] at h; cases h
    · rename_i h; rw [getRandomInteger_cons] at h; cases h
  · rfl

theorem whileNumeratorZero_ensures (min max : Int) (hmm : min ≤ max) (tape : List ℚ) :
    ∀ a : Fraction, a.IsIntegerIn min max → ValidTape tape →
      Gen.Ensures (whileNumeratorZero min max a) tape
        (fun r => r.IsIntegerIn min max ∧ r.numerator ≠ 0) := by
  induction tape with
  | nil =>
    intro a ha hv
    unfold Gen.Ensures
    rw [whileNumeratorZero_nil]
    by_cases hz : a.numerator = 0
    · simp [hz]
    · simp only [hz, if_false]
      exact ⟨⟨ha, hz⟩, hv⟩
  | cons r t ih =>
    intro a ha hv
    by_cases hz : a.numerator = 0
    · have hg := getRandomInteger_ensures min max hmm (r :: t) hv
      have hok := hg.of_ok (getRandomInteger_cons min max r t)
      have := ih _ hok.1 hok.2
      unfold Gen.Ensures at this ⊢
      rw [whileNumeratorZero_cons, if_pos hz]
      exact this
    · unfold Gen.Ensures
      rw [whileNumeratorZero_cons, if_neg hz]
      exact ⟨⟨ha, hz⟩, hv⟩


theorem getRandomFraction_false_eq (min max : Int) (tape : List ℚ) :
    getRandomFraction min max false tape =
      match tape with
      | r :: r2 :: t =>
        Gen.ofExcept (Fraction.new (⌊r * ((max - min + 1 : Int) : ℚ)⌋ + min)
          (⌊r2 * ((5 - 1 + 1 : Int) : ℚ)⌋ + 1)) t
      | _ => .starved := by
  match tape with
  | [] => rfl
  | [_] => rfl
  | r :: r2 :: t =>
    simp only [getRandomFraction, getRandomInt, bind, Gen.bind, Math.random, pure, Gen.pure,
      Bool.false_eq_true, if_false]

theorem getRandomFraction_ensures (min max : Int) (tape : List ℚ) (hv : ValidTape tape) :
    (getRandomFraction min max false).Ensures tape Fraction.Canonical := by
  unfold Gen.Ensures
  rw [getRandomFraction_false_eq]
  match tape, hv with
  | [], _ => trivial
  | [_], _ => trivial
  | r :: r2 :: t, hv =>
    have hok : getRandomInt 1 5 (r2 :: t) = .ok (⌊r2 * ((5 - 1 + 1 : Int) : ℚ)⌋ + 1, t) := rfl
    have h2 := (getRandomInt_ensures 1 5 (by decide) (r2 :: t) hv.tail).of_ok hok
    have hd : ⌊r2 * ((5 - 1 + 1 : Int) : ℚ)⌋ + 1 ≠ 0 := by
      have := h2.1.1
      omega
    obtain ⟨f, e, c, -, -⟩ := Fraction.new_spec (⌊r * ((max - min + 1 : Int) : ℚ)⌋ + min) _ hd
    simp only [e]
    exact ⟨c, h2.2⟩

theorem getRandomFraction_ok_length (min max : Int) (tape rest : List ℚ) (f : Fraction)
    (h : getRandomFraction min max false tape = .ok (f, rest)) : rest.length < tape.length := by
  rw [getRandomFraction_false_eq] at h
  match tape, h with
  | r :: r2 :: t, h =>
    change Gen.ofExcept (Fraction.new _ _) t = _ at h
    generalize Fraction.new _ _ = e at h
    cases e with
    | error m => cases h
    | ok v =>
      simp only [Gen.ofExcept, Gen.pure, Run.ok.injEq, Prod.mk.injEq] at h
      rw [← h.2]
      simp only [List.length_cons]
      omega

theorem whileEquals_eq (a c : Fraction) (tape : List ℚ) :
    whileEquals a c tape =
      if a.equals c then
        match getRandomFraction (-5) 5 false tape with
        | .ok (next, rest) => whileEquals a next rest
        | .throw msg => .throw msg
        | .starved => .starved
      else .ok (c, tape) := by
  rw [whileEquals]
  split
  · split <;> rename_i h <;> simp only [h]
  · rfl

theorem whileEquals_ensures (a : Fraction) :
    ∀ (n : Nat) (tape : List ℚ), tape.length ≤ n → ∀ c : Fraction, c.Canonical →
      ValidTape tape →
      Gen.Ensures (whileEquals a c) tape (fun r => r.Canonical ∧ a ≠ r) := by
  intro n
  induction n with
  | zero =>
    intro tape hl c hc hv
    have ht : tape = [] := List.length_eq_zero.mp (Nat.le_zero.mp hl)
    subst ht
    unfold Gen.Ensures
    rw [whileEquals_eq]
    by_cases he : a.equals c = true
    · simp only [he, if_true]
      rw [getRandomFraction_false_eq]
      trivial
    · simp only [he]
      exact ⟨⟨hc, fun h => he ((Fraction.equals_iff a c).mpr h)⟩, hv⟩
  | succ n ih =>
    intro tape hl c hc hv
    unfold Gen.Ensures
    rw [whileEquals_eq]
    by_cases he : a.equals c = true
    · simp only [he, if_true]
      have hg := getRandomFraction_ensures (-5) 5 tape hv
      cases hgt : getRandomFraction (-5) 5 false tape with
      | ok v =>
        obtain ⟨next, rest⟩ := v
        have hok := hg.of_ok hgt
        have hlen := getRandomFraction_ok_length (-5) 5 tape rest next hgt
        exact ih rest (by omega) next hok.1 hok.2
      | throw m => exact hg.not_throw m hgt
      | starved => trivial
    · simp only [he]
      exact ⟨⟨hc, fun h => he ((Fraction.equals_iff a c).mpr h)⟩, hv⟩

theorem Fraction.Canonical.numerator_ne_zero_iff {a : Fraction} (ha : a.Canonical) :
    a.numerator ≠ 0 ↔ a.value ≠ 0 := by
  have hd : (a.denominator : ℚ) ≠ 0 := by exact_mod_cast ha.den_ne_zero
  unfold Fraction.value
  rw [Ne, Ne, div_eq_zero_iff]
  simp [hd]

theorem Fraction.divide_spec (a b : Fraction) (ha : a.Canonical) (hb : b.Canonical)
    (hn : b.numerator ≠ 0) :
    ∃ r, a.divide b = .ok r ∧ r.Canonical ∧ r.value = a.value / b.value := by
  obtain ⟨r, hr, c, -, v⟩ := Fraction.divide_ok a b ha hn
  exact ⟨r, hr, c, v.trans (Fraction.divide_value a b ha hb hn)⟩

theorem Fraction.IsIntegerIn.value {min max : Int} {a : Fraction} (h : a.IsIntegerIn min max) :
    a.value = (a.numerator : ℚ) := by
  unfold Fraction.value
  rw [h.1]
  simp

theorem Fraction.IsIntegerIn.eq_mk {min max : Int} {a : Fraction} (h : a.IsIntegerIn min max) :
    a = ⟨a.numerator, 1⟩ := by
  obtain ⟨n, d⟩ := a
  have := h.1
  simp only at this
  subst this
  rfl


/-! ## generateEquation, level by level -/

theorem Fraction.natAbs_value {min max : Int} {a : Fraction} (h : a.IsIntegerIn min max) :
    Fraction.value ⟨(a.numerator.natAbs : Int), 1⟩ = |a.value| := by
  rw [h.value]
  unfold Fraction.value
  simp

theorem Fraction.natAbs_canonical (n : Int) : Fraction.Canonical ⟨(n.natAbs : Int), 1⟩ :=
  ⟨by simp, by simp, fun _ => rfl⟩

theorem generateEquation_level1 (tape : List ℚ) (hv : ValidTape tape) :
    (generateEquation 1).Ensures tape
      (fun p => p.2.Satisfied p.1.answer.value ∧ p.2.level = 1 ∧ p.2.DivisorsNonZero) := by
  unfold generateEquation
  simp only [if_true]
  refine Gen.Ensures.bind (getRandomInteger_ensures _ _ (by decide) tape hv) ?_
  intro a t1 ha hv1
  refine Gen.Ensures.bind (getRandomInteger_ensures _ _ (by decide) t1 hv1) ?_
  intro b t2 hb hv2
  refine Gen.Ensures.bind (random_ensures t2 hv2) ?_
  intro r t3 hr hv3
  by_cases hlt : r < 0.5
  · simp only [hlt, if_true]
    obtain ⟨ans, hans, -, hval⟩ := Fraction.subtract_spec b a hb.canonical ha.canonical
    refine Gen.Ensures.bind (Gen.Ensures.ofExcept hans (P := fun x => x = ans) rfl hv3) ?_
    intro x t4 hx hv4
    subst hx
    refine Gen.Ensures.pure ⟨?_, rfl, trivial⟩ hv4
    left
    exact ⟨rfl, by rw [hval]; ring⟩
  · simp only [hlt, if_false]
    rw [if_neg (by decide)]
    obtain ⟨ans, hans, -, hval⟩ := Fraction.add_spec b a hb.canonical ha.canonical
    refine Gen.Ensures.bind (Gen.Ensures.ofExcept hans (P := fun x => x = ans) rfl hv3) ?_
    intro x t4 hx hv4
    subst hx
    refine Gen.Ensures.pure ⟨?_, rfl, trivial⟩ hv4
    right
    exact ⟨rfl, by rw [hval]; ring⟩

theorem generateEquation_level2 (tape : List ℚ) (hv : ValidTape tape) :
    (generateEquation 2).Ensures tape
      (fun p => p.2.Satisfied p.1.answer.value ∧ p.2.level = 2 ∧ p.2.DivisorsNonZero) := by
  rw [generateEquation, if_neg (by decide), if_pos rfl]
  refine Gen.Ensures.bind (getRandomInteger_ensures _ _ (by decide) tape hv) ?_
  intro a0 t1 ha0 hv1
  refine Gen.Ensures.bind (whileNumeratorZero_ensures _ _ (by decide) t1 a0 ha0 hv1) ?_
  intro a t2 ha hv2
  refine Gen.Ensures.bind (getRandomInteger_ensures _ _ (by decide) t2 hv2) ?_
  intro b t3 hb hv3
  refine Gen.Ensures.bind (random_ensures t3 hv3) ?_
  intro r t4 hr hv4
  have hav : a.value ≠ 0 := (ha.1.canonical.numerator_ne_zero_iff).mp ha.2
  by_cases hlt : r < 0.5
  · simp only [hlt, if_true]
    obtain ⟨ans, hans, -, hval⟩ := Fraction.divide_spec b a hb.canonical ha.1.canonical ha.2
    refine Gen.Ensures.bind (Gen.Ensures.ofExcept hans (P := fun x => x = ans) rfl hv4) ?_
    intro x t5 hx hv5
    subst hx
    refine Gen.Ensures.pure ⟨?_, rfl, ha.2⟩ hv5
    left
    refine ⟨rfl, ?_⟩
    rw [hval]
    field_simp
  · simp only [hlt, if_false]
    rw [if_neg (by decide)]
    obtain ⟨ans, hans, -, hval⟩ := Fraction.multiply_spec b ⟨(a.numerator.natAbs : Int), 1⟩
      hb.canonical (Fraction.natAbs_canonical _)
    have hans2 : (do b.multiply (← Fraction.new (a.numerator.natAbs : Int) 1)) = .ok ans := by
      rw [Fraction.new_one]
      exact hans
    refine Gen.Ensures.bind (Gen.Ensures.ofExcept hans2 (P := fun x => x = ans) rfl hv4) ?_
    intro x t5 hx hv5
    subst hx
    refine Gen.Ensures.pure ⟨?_, rfl, ha.2⟩ hv5
    right
    refine ⟨rfl, ?_⟩
    rw [hval, Fraction.natAbs_value ha.1]
    have : |a.value| ≠ 0 := abs_ne_zero.mpr hav
    field_simp

theorem generateEquation_level3 (tape : List ℚ) (hv : ValidTape tape) :
    (generateEquation 3).Ensures tape
      (fun p => p.2.Satisfied p.1.answer.value ∧ p.2.level = 3 ∧ p.2.DivisorsNonZero) := by
  rw [generateEquation, if_neg (by decide), if_neg (by decide), if_pos rfl]
  refine Gen.Ensures.bind (getRandomInteger_ensures _ _ (by decide) tape hv) ?_
  intro a0 t1 ha0 hv1
  refine Gen.Ensures.bind (whileNumeratorZero_ensures _ _ (by decide) t1 a0 ha0 hv1) ?_
  intro a t2 ha hv2
  refine Gen.Ensures.bind (getRandomInteger_ensures _ _ (by decide) t2 hv2) ?_
  intro b t3 hb hv3
  refine Gen.Ensures.bind (getRandomInteger_ensures _ _ (by decide) t3 hv3) ?_
  intro c t4 hc hv4
  have hav : a.value ≠ 0 := (ha.1.canonical.numerator_ne_zero_iff).mp ha.2
  have habs : Fraction.new (b.numerator.natAbs : Int) b.denominator
      = .ok ⟨(b.numerator.natAbs : Int), 1⟩ := by rw [hb.1, Fraction.new_one]
  refine Gen.Ensures.bind (Gen.Ensures.ofExcept habs (P := fun _ => True) trivial hv4) ?_
  intro absB t5 _ hv5
  obtain ⟨r1, h1, c1, v1⟩ := Fraction.subtract_spec c b hc.canonical hb.canonical
  obtain ⟨ans, hans, -, hval⟩ := Fraction.divide_spec r1 a c1 ha.1.canonical ha.2
  have hans2 : (do (← c.subtract b).divide a) = .ok ans := by
    rw [h1]
    exact hans
  refine Gen.Ensures.bind (Gen.Ensures.ofExcept hans2 (P := fun x => x = ans) rfl hv5) ?_
  intro x t6 hx hv6
  subst hx
  refine Gen.Ensures.pure ⟨?_, rfl, ha.2⟩ hv6
  show a.value * x.value + b.value = c.value
  rw [hval, v1]
  field_simp

theorem generateEquation_level4 (tape : List ℚ) (hv : ValidTape tape) :
    (generateEquation 4).Ensures tape
      (fun p => p.2.Satisfied p.1.answer.value ∧ p.2.level = 4 ∧ p.2.DivisorsNonZero) := by
  rw [generateEquation, if_neg (by decide), if_neg (by decide), if_neg (by decide), if_pos rfl]
  refine Gen.Ensures.bind (getRandomInteger_ensures _ _ (by decide) tape hv) ?_
  intro a t1 ha hv1
  refine Gen.Ensures.bind (getRandomInteger_ensures _ _ (by decide) t1 hv1) ?_
  intro b t2 hb hv2
  refine Gen.Ensures.bind (getRandomInteger_ensures _ _ (by decide) t2 hv2) ?_
  intro c0 t3 hc0 hv3
  refine Gen.Ensures.bind (getRandomInteger_ensures _ _ (by decide) t3 hv3) ?_
  intro d t4 hd hv4
  refine Gen.Ensures.bind (whileEquals_ensures a t4.length t4 le_rfl c0 hc0.canonical hv4) ?_
  intro c t5 hc hv5
  have habs : Fraction.new (b.numerator.natAbs : Int) b.denominator
      = .ok ⟨(b.numerator.natAbs : Int), 1⟩ := by rw [hb.1, Fraction.new_one]
  refine Gen.Ensures.bind (Gen.Ensures.ofExcept habs (P := fun _ => True) trivial hv5) ?_
  intro absB4 t6 _ hv6
  have habsd : Fraction.new (d.numerator.natAbs : Int) d.denominator
      = .ok ⟨(d.numerator.natAbs : Int), 1⟩ := by rw [hd.1, Fraction.new_one]
  refine Gen.Ensures.bind (Gen.Ensures.ofExcept habsd (P := fun _ => True) trivial hv6) ?_
  intro absD t7 _ hv7
  obtain ⟨r1, h1, c1, v1⟩ := Fraction.subtract_spec d b hd.canonical hb.canonical
  obtain ⟨r2, h2, c2, v2⟩ := Fraction.subtract_spec a c ha.canonical hc.1
  have hne : a.value - c.value ≠ 0 := fun h =>
    hc.2 (Fraction.Canonical.eq_of_value ha.canonical hc.1 (sub_eq_zero.mp h))
  have hr2 : r2.numerator ≠ 0 := (c2.numerator_ne_zero_iff).mpr (by rw [v2]; exact hne)
  obtain ⟨ans, hans, -, hval⟩ := Fraction.divide_spec r1 r2 c1 c2 hr2
  have hans2 : (do (← d.subtract b).divide (← a.subtract c)) = .ok ans := by
    rw [h1, h2]
    exact hans
  refine Gen.Ensures.bind (Gen.Ensures.ofExcept hans2 (P := fun x => x = ans) rfl hv7) ?_
  intro x t8 hx hv8
  subst hx
  refine Gen.Ensures.pure ⟨?_, rfl, hc.2, r2, h2, hr2⟩ hv8
  show a.value * x.value + b.value = c.value * x.value + d.value
  rw [hval, v1, v2]
  field_simp
  ring

theorem generateEquation_level5 (tape : List ℚ) (hv : ValidTape tape) :
    (generateEquation 5).Ensures tape
      (fun p => p.2.Satisfied p.1.answer.value ∧ p.2.level = 5 ∧ p.2.DivisorsNonZero) := by
  rw [generateEquation, if_neg (by decide), if_neg (by decide), if_neg (by decide),
    if_neg (by decide), if_pos rfl]
  refine Gen.Ensures.bind (getRandomInteger_ensures _ _ (by decide) tape hv) ?_
  intro a0 t1 ha0 hv1
  refine Gen.Ensures.bind (whileNumeratorZero_ensures _ _ (by decide) t1 a0 ha0 hv1) ?_
  intro a t2 ha hv2
  refine Gen.Ensures.bind (getRandomInteger_ensures _ _ (by decide) t2 hv2) ?_
  intro b0 t3 hb0 hv3
  refine Gen.Ensures.bind (whileNumeratorZero_ensures _ _ (by decide) t3 b0 hb0 hv3) ?_
  intro b t4 hb hv4
  refine Gen.Ensures.bind (getRandomInteger_ensures _ _ (by decide) t4 hv4) ?_
  intro c t5 hc hv5
  refine Gen.Ensures.bind (getRandomInteger_ensures _ _ (by decide) t5 hv5) ?_
  intro d t6 hd hv6
  have hav : a.value ≠ 0 := (ha.1.canonical.numerator_ne_zero_iff).mp ha.2
  have hbv : b.value ≠ 0 := (hb.1.canonical.numerator_ne_zero_iff).mp hb.2
  have habs : Fraction.new (c.numerator.natAbs : Int) c.denominator
      = .ok ⟨(c.numerator.natAbs : Int), 1⟩ := by rw [hc.1, Fraction.new_one]
  refine Gen.Ensures.bind (Gen.Ensures.ofExcept habs (P := fun _ => True) trivial hv6) ?_
  intro absC t7 _ hv7
  obtain ⟨r1, h1, c1, v1⟩ := Fraction.multiply_spec a c ha.1.canonical hc.canonical
  obtain ⟨r2, h2, c2, v2⟩ := Fraction.subtract_spec d r1 hd.canonical c1
  obtain ⟨r3, h3, c3, v3⟩ := Fraction.multiply_spec a b ha.1.canonical hb.1.canonical
  have hr3 : r3.numerator ≠ 0 :=
    (c3.numerator_ne_zero_iff).mpr (by rw [v3]; exact mul_ne_zero hav hbv)
  obtain ⟨ans, hans, -, hval⟩ := Fraction.divide_spec r2 r3 c2 c3 hr3
  have hans2 : (do (← d.subtract (← a.multiply c)).divide (← a.multiply b)) = .ok ans := by
    rw [h1]
    show (do (← d.subtract r1).divide (← a.multiply b)) = .ok ans
    rw [h2, h3]
    exact hans
  refine Gen.Ensures.bind (Gen.Ensures.ofExcept hans2 (P := fun x => x = ans) rfl hv7) ?_
  intro x t8 hx hv8
  subst hx
  refine Gen.Ensures.pure ⟨?_, rfl, ha.2, hb.2, r3, h3, hr3⟩ hv8
  show a.value * (b.value * x.value + c.value) = d.value
  rw [hval, v2, v3, v1]
  field_simp
  ring

theorem generateEquation_invalid (level : Int) (h : ¬ (1 ≤ level ∧ level ≤ 5))
    (tape : List ℚ) (hv : ValidTape tape) :
    (generateEquation level).Ensures tape
      (fun p => p.1 = ⟨"Invalid level", ⟨0, 1⟩⟩ ∧ p.2 = .invalid) := by
  rw [generateEquation, if_neg (by omega), if_neg (by omega), if_neg (by omega),
    if_neg (by omega), if_neg (by omega)]
  refine Gen.Ensures.bind
    (Gen.Ensures.ofExcept (Fraction.new_one 0) (P := fun x => x = ⟨0, 1⟩) rfl hv) ?_
  intro x t1 hx hv1
  subst hx
  exact Gen.Ensures.pure ⟨rfl, rfl⟩ hv1

theorem generateEquation_ensures (level : Int) (tape : List ℚ) (hv : ValidTape tape) :
    (generateEquation level).Ensures tape
      (fun p => (1 ≤ level ∧ level ≤ 5 → p.2.Satisfied p.1.answer.value ∧ p.2.level = level) ∧
        p.2.DivisorsNonZero) := by
  by_cases h : 1 ≤ level ∧ level ≤ 5
  · have hcases : level = 1 ∨ level = 2 ∨ level = 3 ∨ level = 4 ∨ level = 5 := by omega
    rcases hcases with rfl | rfl | rfl | rfl | rfl
    · exact (generateEquation_level1 tape hv).mono (fun p hp => ⟨fun _ => ⟨hp.1, hp.2.1⟩, hp.2.2⟩)
    · exact (generateEquation_level2 tape hv).mono (fun p hp => ⟨fun _ => ⟨hp.1, hp.2.1⟩, hp.2.2⟩)
    · exact (generateEquation_level3 tape hv).mono (fun p hp => ⟨fun _ => ⟨hp.1, hp.2.1⟩, hp.2.2⟩)
    · exact (generateEquation_level4 tape hv).mono (fun p hp => ⟨fun _ => ⟨hp.1, hp.2.1⟩, hp.2.2⟩)
    · exact (generateEquation_level5 tape hv).mono (fun p hp => ⟨fun _ => ⟨hp.1, hp.2.1⟩, hp.2.2⟩)
  · refine (generateEquation_invalid level h tape hv).mono (fun p hp => ⟨fun h2 => (h h2).elim, ?_⟩)
    rw [hp.2]
    trivial


/-! ## The generator: the answer solves the equation, and no division by zero -/

/-- C1: for every level 1..5 and every tape of draws on which `generateEquation` returns, the
answer returned satisfies, in exact rational arithmetic, the relation built from the coefficients
as last sampled: `x + a = b` or `x - a = b` (level 1), `a x = b` or `x / |a| = b` (level 2),
`a x + b = c` (level 3), `a x + b = c x + d` (level 4), `a (b x + c) = d` (level 5). -/
theorem generated_answer_satisfies_relation (level : Int) (hl : 1 ≤ level ∧ level ≤ 5)
    (tape rest : List ℚ) (hv : ValidTape tape) (eq : Equation) (s : Sampled)
    (h : generateEquation level tape = .ok ((eq, s), rest)) :
    s.level = level ∧ s.Satisfied eq.answer.value := by
  have := ((generateEquation_ensures level tape hv).of_ok h).1.1 hl
  exact ⟨this.2, this.1⟩

/-- Witness for C1: level 5 with draws giving a = 2, b = 3, c = -1, d = 5; the equation is
`2(3x - 1) = 5` and the answer 7/6. -/
theorem generated_answer_satisfies_relation_witness :
    ValidTape [0.8, 0.8, 0.45, 0.62] ∧
    generateEquation 5 [0.8, 0.8, 0.45, 0.62] =
      .ok ((⟨"2(3x - 1) = 5", ⟨7, 6⟩⟩, .level5 ⟨2, 1⟩ ⟨3, 1⟩ ⟨-1, 1⟩ ⟨5, 1⟩), []) ∧
    (Sampled.level5 ⟨2, 1⟩ ⟨3, 1⟩ ⟨-1, 1⟩ ⟨5, 1⟩).level = 5 ∧
    (Sampled.level5 ⟨2, 1⟩ ⟨3, 1⟩ ⟨-1, 1⟩ ⟨5, 1⟩).Satisfied (Fraction.value ⟨7, 6⟩) :=
  ⟨by decide!, by decide!,
    generated_answer_satisfies_relation 5 (by decide) [0.8, 0.8, 0.45, 0.62] [] (by decide!)
      ⟨"2(3x - 1) = 5", ⟨7, 6⟩⟩ (.level5 ⟨2, 1⟩ ⟨3, 1⟩ ⟨-1, 1⟩ ⟨5, 1⟩) (by decide!)⟩

/-- C4, evaluated where it fails: level 1 with draws giving a = -3, b = 5 and the operator `+`
produces the equation `x + (-3) = 5` with answer 8; its text has a parenthesised group, so
`generateSolution` takes the bracket case, reads `inside.split('x')[1]` of `-3`, which is
`undefined`, and throws instead of returning steps that end in `x = 8`. -/
theorem generateSolution_throws_on_generated_level1 :
    ValidTape [7/20, 3/4, 1/4] ∧
    generateEquation 1 [7/20, 3/4, 1/4] =
      .ok ((⟨"x + (-3) = 5", ⟨8, 1⟩⟩, .level1 ⟨-3, 1⟩ ⟨5, 1⟩ "+"), []) ∧
    generateSolution ⟨"x + (-3) = 5", ⟨8, 1⟩⟩ = .error typeError :=
  ⟨by decide!, by decide!, by decide!⟩

/-- C5: on every tape of draws `generateEquation` never throws, at any level: the run returns
or waits for more draws.  When it returns, every divisor it passed to `divide` is non-zero:
`a` at levels 2 and 3, `a - c` at level 4, `a` and `b` and so `a * b` at level 5. -/
theorem generateEquation_never_throws (level : Int) (tape : List ℚ) (hv : ValidTape tape) :
    (∀ msg, generateEquation level tape ≠ .throw msg) ∧
    ∀ eq s rest, generateEquation level tape = .ok ((eq, s), rest) → s.DivisorsNonZero := by
  have he := generateEquation_ensures level tape hv
  exact ⟨fun msg => he.not_throw msg, fun eq s rest h => (he.of_ok h).1.2⟩

/-- Witness for C5: level 2 with draws giving a = -4 (after a first draw of 0 is rejected),
b = 20 and the division form. -/
theorem generateEquation_never_throws_witness :
    ValidTape [0.5, 0.1, 0.99, 0.6] ∧
    generateEquation 2 [0.5, 0.1, 0.99, 0.6] =
      .ok ((⟨"\\frac\x7bx\x7d\x7b4\x7d = 20", ⟨80, 1⟩⟩, .level2 ⟨-4, 1⟩ ⟨20, 1⟩ "/"), []) ∧
    ((∀ msg, generateEquation 2 [0.5, 0.1, 0.99, 0.6] ≠ .throw msg) ∧
    ∀ eq s rest, generateEquation 2 [0.5, 0.1, 0.99, 0.6] = .ok ((eq, s), rest) →
      s.DivisorsNonZero) :=
  ⟨by decide!, by decide!, generateEquation_never_throws 2 [0.5, 0.1, 0.99, 0.6] (by decide!)⟩


/-! ## The solution steps -/

/-- Whenever `generateSolution` returns, the steps end with the final-answer narration and the
math step `x = ` followed by the answer's `toEquationString()`. -/
theorem generateSolution_ends_with_answer (equationObj : Equation) (steps : List Step)
    (h : generateSolution equationObj = .ok steps) :
    ∃ init, steps = init ++
      [⟨"text", "最終答案:"⟩, ⟨"math", "x = " ++ equationObj.answer.toEquationString⟩] := by
  unfold generateSolution at h
  simp only at h
  split at h
  · cases h
  · rename_i init _
    injection h with h
    exact ⟨init, h.symm⟩

/-- Witness: the steps of `x + 3 = 7` with answer 4. -/
theorem generateSolution_ends_with_answer_witness :
    ∃ init, [(⟨"text", "原始方程式:"⟩ : Step), ⟨"math", "x + 3 = 7"⟩,
        ⟨"text", "步驟 1: 將常數項移到等號右邊 (兩邊同減)"⟩, ⟨"math", "x + 3 = 7"⟩,
        ⟨"math", "x = 7 - 3"⟩, ⟨"text", "最終答案:"⟩, ⟨"math", "x = 4"⟩] = init ++
      [⟨"text", "最終答案:"⟩,
        ⟨"math", "x = " ++ (Equation.mk "x + 3 = 7" ⟨4, 1⟩).answer.toEquationString⟩] :=
  generateSolution_ends_with_answer ⟨"x + 3 = 7", ⟨4, 1⟩⟩ _ (by decide!)

theorem generateSolution_error_of_caseSteps (equationObj : Equation) (e : String)
    (h : caseSteps [⟨"text", "原始方程式:"⟩, ⟨"math", String.mk equationObj.equation.data⟩]
      equationObj.equation.data = .error e) :
    generateSolution equationObj = .error e := by
  unfold generateSolution
  simp only [h]
  rfl

/-- The text of a level-1 equation: `x + a = b` or `x - a = b`, a negative `a` in brackets,
both coefficients integers from -10 to 10. -/
theorem generateEquation_level1_text (tape : List ℚ) (hv : ValidTape tape) :
    (generateEquation 1).Ensures tape (fun p => ∃ a b op, p.2 = .level1 a b op ∧
      a.IsIntegerIn (-10) 10 ∧ b.IsIntegerIn (-10) 10 ∧
      ((op = "+" ∧ p.1.equation = "x + " ++
          (if a.numerator < 0 then "(" ++ a.toEquationString ++ ")" else a.toEquationString)
          ++ " = " ++ b.toEquationString) ∨
       (op = "-" ∧ p.1.equation = "x - " ++
          (if a.numerator < 0 then "(" ++ a.toEquationString ++ ")" else a.toEquationString)
          ++ " = " ++ b.toEquationString))) := by
  unfold generateEquation
  simp only [if_true]
  refine Gen.Ensures.bind (getRandomInteger_ensures _ _ (by decide) tape hv) ?_
  intro a t1 ha hv1
  refine Gen.Ensures.bind (getRandomInteger_ensures _ _ (by decide) t1 hv1) ?_
  intro b t2 hb hv2
  refine Gen.Ensures.bind (random_ensures t2 hv2) ?_
  intro r t3 hr hv3
  by_cases hlt : r < 0.5
  · simp only [hlt, if_true]
    obtain ⟨ans, hans, -, -⟩ := Fraction.subtract_spec b a hb.canonical ha.canonical
    refine Gen.Ensures.bind (Gen.Ensures.ofExcept hans (P := fun x => x = ans) rfl hv3) ?_
    intro x t4 hx hv4
    exact Gen.Ensures.pure ⟨a, b, "+", rfl, ha, hb, Or.inl ⟨rfl, rfl⟩⟩ hv4
  · simp only [hlt, if_false]
    rw [if_neg (by decide)]
    obtain ⟨ans, hans, -, -⟩ := Fraction.add_spec b a hb.canonical ha.canonical
    refine Gen.Ensures.bind (Gen.Ensures.ofExcept hans (P := fun x => x = ans) rfl hv3) ?_
    intro x t4 hx hv4
    exact Gen.Ensures.pure ⟨a, b, "-", rfl, ha, hb, Or.inr ⟨rfl, rfl⟩⟩ hv4

theorem toEquationString_integer (n : Int) :
    Fraction.toEquationString ⟨n, 1⟩ = toString n := by
  simp [Fraction.toEquationString]

/-- The bracket case throws on every level-1 text with a negative `a`: the cases `a` from -10
to -1 and `b` from -10 to 10, both forms, evaluated one by one. -/
theorem caseSteps_throws_level1_negative :
    ∀ k ∈ List.range 10, ∀ j ∈ List.range 21,
      (let text := "x + " ++ ("(" ++ toString (-(k + 1 : Int)) ++ ")") ++ " = " ++
          toString ((j : Int) - 10)
       caseSteps [⟨"text", "原始方程式:"⟩, ⟨"math", String.mk text.data⟩] text.data
         = .error typeError) ∧
      (let text := "x - " ++ ("(" ++ toString (-(k + 1 : Int)) ++ ")") ++ " = " ++
          toString ((j : Int) - 10)
       caseSteps [⟨"text", "原始方程式:"⟩, ⟨"math", String.mk text.data⟩] text.data
         = .error typeError) := by
  decide!

/-- On every tape on which `generateEquation(1)` returns an equation whose sampled `a` is
negative, `generateSolution` throws on that equation. -/
theorem generateSolution_throws_level1_negative (tape rest : List ℚ) (hv : ValidTape tape)
    (eq : Equation) (a b : Fraction) (op : String)
    (h : generateEquation 1 tape = .ok ((eq, .level1 a b op), rest))
    (hneg : a.numerator < 0) :
    generateSolution eq = .error typeError := by
  obtain ⟨⟨a2, b2, op2, hs, ha, hb, htext⟩, -⟩ := (generateEquation_level1_text tape hv).of_ok h
  simp only [Sampled.level1.injEq] at hs
  obtain ⟨rfl, rfl, rfl⟩ := hs
  apply generateSolution_error_of_caseSteps
  have hak : (-(a.numerator) - 1).toNat ∈ List.range 10 := by
    rw [List.mem_range]; have := ha.2.1; omega
  have hbj : (b.numerator + 10).toNat ∈ List.range 21 := by
    rw [List.mem_range]; have := hb.2.1; have := hb.2.2; omega
  have hfin := caseSteps_throws_level1_negative _ hak _ hbj
  have e1 : (-(((-(a.numerator) - 1).toNat : Int) + 1)) = a.numerator := by
    have := ha.2.1; omega
  have e2 : (((b.numerator + 10).toNat : Int) - 10) = b.numerator := by
    have := hb.2.1; omega
  rw [e1, e2] at hfin
  have hta : a.toEquationString = toString a.numerator := by
    rw [ha.eq_mk]; exact toEquationString_integer _
  have htb : b.toEquationString = toString b.numerator := by
    rw [hb.eq_mk]; exact toEquationString_integer _
  rcases htext with ⟨-, ht⟩ | ⟨-, ht⟩
  · rw [ht, if_pos hneg, hta, htb]
    exact hfin.1
  · rw [ht, if_pos hneg, hta, htb]
    exact hfin.2

/-- Witness: the draws 0.35, 0.75, 0.25 give `x + (-3) = 5`. -/
theorem generateSolution_throws_level1_negative_witness :
    generateSolution ⟨"x + (-3) = 5", ⟨8, 1⟩⟩ = .error typeError :=
  generateSolution_throws_level1_negative [7/20, 3/4, 1/4] [] (by decide!)
    ⟨"x + (-3) = 5", ⟨8, 1⟩⟩ ⟨-3, 1⟩ ⟨5, 1⟩ "+" (by decide!) (by decide)

/-! ## Arithmetic identities -/

/-- C13: for every level other than 1, 2, 3, 4, 5 `generateEquation` does not throw: it returns
the text `Invalid level` with the answer 0/1, and the tape of draws is handed back untouched. -/
theorem generateEquation_invalid_level (level : Int) (h : ¬ (1 ≤ level ∧ level ≤ 5))
    (tape : List ℚ) :
    generateEquation level tape = .ok ((⟨"Invalid level", ⟨0, 1⟩⟩, .invalid), tape) := by
  rw [generateEquation, if_neg (by omega), if_neg (by omega), if_neg (by omega),
    if_neg (by omega), if_neg (by omega)]
  simp only [bind, Gen.bind, Fraction.new_one, Gen.ofExcept, pure, Gen.pure]

/-- Witness for C13 at level 6 with two draws waiting on the tape. -/
theorem generateEquation_invalid_level_witness :
    generateEquation 6 [0.3, 0.7] = .ok ((⟨"Invalid level", ⟨0, 1⟩⟩, .invalid), [0.3, 0.7]) :=
  generateEquation_invalid_level 6 (by decide) [0.3, 0.7]

/-! ## Rendering -/

/-- C15: for a canonical fraction `(p, q)`, `toEquationString` is the decimal string of `p` when
`q = 1` (zero is `0`); otherwise it is `\frac{p}{q}` for `p > 0` and `-\frac{|p|}{q}` for
`p < 0`.  What stands inside the braces is the decimal string of a natural number, so there
is no minus sign inside them. -/
theorem toEquationString_canonical (f : Fraction) (hf : f.Canonical) :
    (f.denominator = 1 → f.toEquationString = toString f.numerator) ∧
    (f.numerator = 0 → f.toEquationString = "0") ∧
    (f.denominator ≠ 1 → 0 < f.numerator ∧ f.toEquationString =
        "\\frac\x7b" ++ toString f.numerator.natAbs ++ "\x7d\x7b" ++
          toString f.denominator.natAbs ++ "\x7d" ∨
      f.numerator < 0 ∧ f.toEquationString =
        "-\\frac\x7b" ++ toString f.numerator.natAbs ++ "\x7d\x7b" ++
          toString f.denominator.natAbs ++ "\x7d") := by
  obtain ⟨p, q⟩ := f
  obtain ⟨hq, -, hz⟩ := hf
  simp only at hq hz
  have hqs : toString q = toString q.natAbs := by
    obtain ⟨n, rfl⟩ := Int.eq_ofNat_of_zero_le hq.le
    rfl
  refine ⟨?_, ?_, ?_⟩
  · intro h
    simp only at h
    simp [Fraction.toEquationString, h]
  · intro h
    simp only at h
    subst h
    simp [Fraction.toEquationString, hz rfl]
    rfl
  · intro h
    simp only [ne_eq] at h
    have hp : p ≠ 0 := fun hp => h (hz hp)
    rcases lt_or_gt_of_ne hp with hneg | hpos
    · right
      refine ⟨hneg, ?_⟩
      simp only [Fraction.toEquationString, h, hp, hneg, if_false, if_true, hqs]
    · left
      refine ⟨hpos, ?_⟩
      have hps : toString p = toString p.natAbs := by
        obtain ⟨n, rfl⟩ := Int.eq_ofNat_of_zero_le hpos.le
        rfl
      simp only [Fraction.toEquationString, h, hp, not_lt.mpr hpos.le, if_false, hqs, hps]

/-- Witness for C15 at -2/3, rendered `-\frac{2}{3}`. -/
theorem toEquationString_canonical_witness :
    Fraction.toEquationString ⟨-2, 3⟩ = "-\\frac\x7b2\x7d\x7b3\x7d" ∧
    (((3 : Int) = 1 → Fraction.toEquationString ⟨-2, 3⟩ = toString (-2 : Int)) ∧
    ((-2 : Int) = 0 → Fraction.toEquationString ⟨-2, 3⟩ = "0") ∧
    ((3 : Int) ≠ 1 → 0 < (-2 : Int) ∧ Fraction.toEquationString ⟨-2, 3⟩ =
        "\\frac\x7b" ++ toString (-2 : Int).natAbs ++ "\x7d\x7b" ++
          toString (3 : Int).natAbs ++ "\x7d" ∨
      (-2 : Int) < 0 ∧ Fraction.toEquationString ⟨-2, 3⟩ =
        "-\\frac\x7b" ++ toString (-2 : Int).natAbs ++ "\x7d\x7b" ++
          toString (3 : Int).natAbs ++ "\x7d")) :=
  ⟨by decide, toEquationString_canonical ⟨-2, 3⟩ (by decide)⟩

/-- C16: `toString` is the decimal string of the numerator when the denominator is 1 or the
numerator is 0, and otherwise numerator, slash, denominator; this holds of every fraction,
canonical or not. -/
theorem toString_display (f : Fraction) :
    f.toString =
      if f.denominator = 1 ∨ f.numerator = 0 then toString f.numerator
      else toString f.numerator ++ "/" ++ toString f.denominator := by
  unfold Fraction.toString
  by_cases h1 : f.denominator = 1
  · simp [h1]
  · by_cases h0 : f.numerator = 0
    · simp [h1, h0]
      rfl
    · simp [h1, h0]

/-! ## Where the solution steps go wrong -/

/-- C14, evaluated where it fails: `generateSolution` throws on the text `x`, which has no
`=` (the test of `x` on both sides reads `split('=')[1]`, which is `undefined`), and on the
generated level-1 text `x - (-3) = 5` (the bracket case reads `inside.split('x')[1]` of `-3`). -/
theorem generateSolution_throws_on_some_texts :
    generateSolution ⟨"x", ⟨0, 1⟩⟩ = .error typeError ∧
    generateSolution ⟨"x - (-3) = 5", ⟨2, 1⟩⟩ = .error typeError ∧
    generateEquation 1 [0.35, 0.75, 0.75] =
      .ok ((⟨"x - (-3) = 5", ⟨2, 1⟩⟩, .level1 ⟨-3, 1⟩ ⟨5, 1⟩ "-"), []) :=
  ⟨by decide!, by decide!, by decide!⟩

/-- C17, evaluated where it fails: level 2 with draws giving a = 3, b = -6 and the
multiplication form produces `3x = -6`; its minus sign and its `3x` make the chain of tests
select the two-step case, whose only expression is the equation split at `=`: no step
`x = \frac{-6}{3}` is produced.  The division form `\frac{x}{4} = -20` and the text `-3x = 6`
go the same way; `3x = 6`, without a minus sign, takes the single-step multiplicative case. -/
theorem level2_negative_takes_two_step_case :
    generateEquation 2 [0.75, 0.35, 0.25] =
      .ok ((⟨"3x = -6", ⟨-2, 1⟩⟩, .level2 ⟨3, 1⟩ ⟨-6, 1⟩ "*"), []) ∧
    classify "3x = -6".data = .ok .twoStep ∧
    generateSolution ⟨"3x = -6", ⟨-2, 1⟩⟩ = .ok
      [⟨"text", "原始方程式:"⟩, ⟨"math", "3x = -6"⟩,
       ⟨"text", "步驟 1: 將常數項移到等號右邊"⟩, ⟨"math", "3x  =  -6"⟩,
       ⟨"text", "步驟 2: 將 x 的係數移到等號右邊 (兩邊同除以係數)"⟩,
       ⟨"text", "最終答案:"⟩, ⟨"math", "x = -2"⟩] ∧
    generateEquation 2 [0.85, 0.01, 0.75] =
      .ok ((⟨"\\frac\x7bx\x7d\x7b4\x7d = -20", ⟨-80, 1⟩⟩, .level2 ⟨4, 1⟩ ⟨-20, 1⟩ "/"), []) ∧
    classify "\\frac\x7bx\x7d\x7b4\x7d = -20".data = .ok .twoStep ∧
    generateSolution ⟨"\\frac\x7bx\x7d\x7b4\x7d = -20", ⟨-80, 1⟩⟩ = .ok
      [⟨"text", "原始方程式:"⟩, ⟨"math", "\\frac\x7bx\x7d\x7b4\x7d = -20"⟩,
       ⟨"text", "步驟 1: 將常數項移到等號右邊"⟩,
       ⟨"math", "\\frac\x7bx\x7d\x7b4\x7d  =  -20"⟩,
       ⟨"text", "步驟 2: 將 x 的係數移到等號右邊 (兩邊同除以係數)"⟩,
       ⟨"text", "最終答案:"⟩, ⟨"math", "x = -80"⟩] ∧
    classify "-3x = 6".data = .ok .twoStep ∧
    classify "3x = 6".data = .ok .singleMultiplicative :=
  ⟨by decide!, by decide!, by decide!, by decide!, by decide!, by decide!, by decide!,
    by decide!⟩

/-- C18, evaluated where it fails: level 3 with draws giving a = -3, b = 5, c = 7 produces
`-3x + 5 = 7`; the pattern for the constant first matches the `-3` of the coefficient, so the
expression after the narration is `x =  7 + 3`: the coefficient is stripped with the constant
and it is the 3 of the coefficient that is moved to the right, where the claim has
`-3x = 7 - 5`.  With the positive coefficient of `3x + 5 = 7` the step is `3x =  7 - 5`. -/
theorem level3_negative_coefficient_is_stripped :
    generateEquation 3 [0.2, 0.72, 0.67] =
      .ok ((⟨"-3x + 5 = 7", ⟨-2, 3⟩⟩, .level3 ⟨-3, 1⟩ ⟨5, 1⟩ ⟨7, 1⟩), []) ∧
    generateSolution ⟨"-3x + 5 = 7", ⟨-2, 3⟩⟩ = .ok
      [⟨"text", "原始方程式:"⟩, ⟨"math", "-3x + 5 = 7"⟩,
       ⟨"text", "步驟 1: 將常數項移到等號右邊"⟩, ⟨"math", "-3x + 5  =  7"⟩,
       ⟨"math", "x =  7 + 3"⟩,
       ⟨"text", "步驟 2: 將 x 的係數移到等號右邊 (兩邊同除以係數)"⟩,
       ⟨"text", "最終答案:"⟩, ⟨"math", "x = -\\frac\x7b2\x7d\x7b3\x7d"⟩] ∧
    generateSolution ⟨"3x + 5 = 7", ⟨2, 3⟩⟩ = .ok
      [⟨"text", "原始方程式:"⟩, ⟨"math", "3x + 5 = 7"⟩,
       ⟨"text", "步驟 1: 將常數項移到等號右邊"⟩, ⟨"math", "3x + 5  =  7"⟩,
       ⟨"math", "3x =  7 - 5"⟩,
       ⟨"text", "步驟 2: 將 x 的係數移到等號右邊 (兩邊同除以係數)"⟩,
       ⟨"text", "最終答案:"⟩, ⟨"math", "x = \\frac\x7b2\x7d\x7b3\x7d"⟩] :=
  ⟨by decide!, by decide!, by decide!⟩

/-! ## Lemmas on strings -/

theorem includes_singleton (c : Char) (s : List Char) : includes [c] s = true ↔ c ∈ s := by
  induction s with
  | nil => simp [includes]
  | cons x xs ih =>
    simp only [includes, List.isPrefixOf, Bool.or_eq_true, ih, List.mem_cons, Bool.and_eq_true,
      beq_iff_eq]
    simp [List.isPrefixOf]

theorem includes_singleton_false (c : Char) (s : List Char) :
    includes [c] s = false ↔ c ∉ s := by
  rw [← includes_singleton, Bool.not_eq_true]

theorem split_of_not_mem (sep : Char) (l : List Char) (h : sep ∉ l) : split sep l = [l] := by
  induction l with
  | nil => rfl
  | cons x xs ih =>
    have hx : x ≠ sep := fun e => h (e ▸ List.mem_cons_self _ _)
    have hxs : sep ∉ xs := fun e => h (List.mem_cons_of_mem _ e)
    simp [split, ih hxs, hx]

theorem split_ne_nil (sep : Char) (l : List Char) : split sep l ≠ [] := by
  cases l with
  | nil => simp [split]
  | cons x xs =>
    simp only [split]
    split <;> split <;> simp

theorem split_append_cons (sep : Char) (l r : List Char) (h : sep ∉ l) :
    split sep (l ++ sep :: r) = l :: split sep r := by
  induction l with
  | nil =>
    simp only [List.nil_append, split]
    cases hs : split sep r with
    | nil => exact absurd hs (split_ne_nil sep r)
    | cons p ps => simp
  | cons x xs ih =>
    have hx : x ≠ sep := fun e => h (e ▸ List.mem_cons_self _ _)
    have hxs : sep ∉ xs := fun e => h (List.mem_cons_of_mem _ e)
    simp [split, ih hxs, hx]

theorem split_two (sep : Char) (l r : List Char) (hl : sep ∉ l) (hr : sep ∉ r) :
    split sep (l ++ sep :: r) = [l, r] := by
  rw [split_append_cons sep l r hl, split_of_not_mem sep r hr]

theorem search_isSome_of_matchHere (re : List RegexItem) (s : List Char)
    (h : (matchHere re s).isSome) :
    ∀ pre before : List Char, (search re before (pre ++ s)).isSome := by
  intro pre
  induction pre with
  | nil =>
    intro before
    simp only [List.nil_append]
    cases s with
    | nil =>
      simp only [search]
      cases hm : matchHere re [] with
      | none => simp [hm] at h
      | some v => simp
    | cons c cs =>
      simp only [search]
      cases hm : matchHere re (c :: cs) with
      | none => simp [hm] at h
      | some v => simp
  | cons p ps ih =>
    intro before
    simp only [List.cons_append, search]
    cases hm : matchHere re (p :: (ps ++ s)) with
    | none => exact ih _
    | some v => simp

theorem coefficientRe_matches (pre post : List Char) (d : Char) (hd : isDigit d = true) :
    (regexMatch coefficientRe (pre ++ d :: 'x' :: post)).isSome := by
  apply search_isSome_of_matchHere
  have hx : isDigit 'x' = false := by decide
  simp [coefficientRe, matchHere, repeatGreedy, hd, hx, RegexItem.lit]

theorem Plain.not_mem {s : List Char} (h : Plain s) {c : Char} (hc : plainChar c = false) :
    c ∉ s := by
  intro hm
  rw [h c hm] at hc
  cases hc

theorem bothSidesHaveX_split (l r : List Char) (hl : '=' ∉ l) (hr : '=' ∉ r) :
    bothSidesHaveX (l ++ '=' :: r) = .ok (decide ('x' ∈ l) && decide ('x' ∈ r)) := by
  unfold bothSidesHaveX
  rw [split_two '=' l r hl hr]
  by_cases hxl : 'x' ∈ l
  · by_cases hxr : 'x' ∈ r
    · simp [(includes_singleton 'x' l).mpr hxl, (includes_singleton 'x' r).mpr hxr, hxl, hxr]
      rfl
    · simp [(includes_singleton 'x' l).mpr hxl, (includes_singleton_false 'x' r).mpr hxr, hxl,
        hxr]
      rfl
  · simp [(includes_singleton_false 'x' l).mpr hxl, hxl]
    rfl

theorem classify_twoStep_text (A S B C : List Char) (hA : Plain A) (hB : Plain B)
    (hC : Plain C) (hS : S = ['+'] ∨ S = ['-'])
    (hd : ∃ pre d, A = pre ++ [d] ∧ isDigit d = true) :
    classify (A ++ ('x' :: ' ' :: (S ++ (' ' :: (B ++ (' ' :: '=' :: ' ' :: C)))))) =
      .ok .twoStep := by
  have hSp : ∀ c, c ∈ S → c = '+' ∨ c = '-' := by
    rcases hS with rfl | rfl <;> simp
  have hno : ∀ c, plainChar c = false → c ≠ 'x' → c ≠ ' ' → c ≠ '+' → c ≠ '-' → c ≠ '=' →
      c ∉ A ++ ('x' :: ' ' :: (S ++ (' ' :: (B ++ (' ' :: '=' :: ' ' :: C))))) := by
    intro c hc h1 h2 h3 h4 h5 hm
    simp only [List.mem_append, List.mem_cons] at hm
    rcases hm with h | h | h | h | h | h | h | h | h | h
    · exact hA.not_mem hc h
    · exact h1 h
    · exact h2 h
    · rcases hSp c h with e | e
      · exact h3 e
      · exact h4 e
    · exact h2 h
    · exact hB.not_mem hc h
    · exact h2 h
    · exact h5 h
    · exact h2 h
    · exact hC.not_mem hc h
  have hopen := hno '(' (by decide) (by decide) (by decide) (by decide) (by decide) (by decide)
  have hsplit : A ++ ('x' :: ' ' :: (S ++ (' ' :: (B ++ (' ' :: '=' :: ' ' :: C))))) =
      (A ++ ('x' :: ' ' :: (S ++ (' ' :: (B ++ [' ']))))) ++ '=' :: (' ' :: C) := by
    simp [List.append_assoc]
  have hl : '=' ∉ A ++ ('x' :: ' ' :: (S ++ (' ' :: (B ++ [' '])))) := by
    intro hm
    simp only [List.mem_append, List.mem_cons, List.mem_singleton] at hm
    rcases hm with h | h | h | h | h | h | h
    · exact hA.not_mem (by decide) h
    · exact absurd h (by decide)
    · exact absurd h (by decide)
    · rcases hSp _ h with e | e <;> exact absurd e (by decide)
    · exact absurd h (by decide)
    · exact hB.not_mem (by decide) h
    · simp at h
  have hr : '=' ∉ ' ' :: C := by
    intro hm
    rcases List.mem_cons.mp hm with h | h
    · exact absurd h (by decide)
    · exact hC.not_mem (by decide) h
  have hxr : 'x' ∉ ' ' :: C := by
    intro hm
    rcases List.mem_cons.mp hm with h | h
    · exact absurd h (by decide)
    · exact hC.not_mem (by decide) h
  have hboth : bothSidesHaveX
      (A ++ ('x' :: ' ' :: (S ++ (' ' :: (B ++ (' ' :: '=' :: ' ' :: C)))))) = .ok false := by
    rw [hsplit, bothSidesHaveX_split _ _ hl hr]
    simp [hxr]
  have hsign : (includes ['+'] (A ++ ('x' :: ' ' :: (S ++ (' ' :: (B ++ (' ' :: '=' :: ' ' :: C))))))
      || includes ['-'] (A ++ ('x' :: ' ' :: (S ++ (' ' :: (B ++ (' ' :: '=' :: ' ' :: C)))))))
      = true := by
    rw [Bool.or_eq_true, includes_singleton, includes_singleton]
    rcases hS with rfl | rfl
    · left; simp
    · right; simp
  obtain ⟨pre, d, rfl, hdig⟩ := hd
  have hcoef : (regexMatch coefficientRe
      ((pre ++ [d]) ++ ('x' :: ' ' :: (S ++ (' ' :: (B ++ (' ' :: '=' :: ' ' :: C))))))).isSome
      = true := by
    have := coefficientRe_matches pre (' ' :: (S ++ (' ' :: (B ++ (' ' :: '=' :: ' ' :: C))))) d
      hdig
    simpa [List.append_assoc] using this
  unfold classify
  rw [(includes_singleton_false '(' _).mpr hopen]
  simp only [Bool.false_and, Bool.false_eq_true, if_false, hboth, hsign, hcoef, Bool.true_or,
    Bool.and_self, if_true]
  rfl

theorem classify_twoSided_text (A S B C T D : List Char) (hA : Plain A) (hB : Plain B)
    (hC : Plain C) (hD : Plain D) (hS : S = ['+'] ∨ S = ['-']) (hT : T = ['+'] ∨ T = ['-']) :
    classify (A ++ ('x' :: ' ' :: (S ++ (' ' :: (B ++ (' ' :: '=' :: ' ' ::
      (C ++ ('x' :: ' ' :: (T ++ (' ' :: D)))))))))) = .ok .twoSided := by
  have hSp : ∀ c, c ∈ S → c = '+' ∨ c = '-' := by
    rcases hS with rfl | rfl <;> simp
  have hTp : ∀ c, c ∈ T → c = '+' ∨ c = '-' := by
    rcases hT with rfl | rfl <;> simp
  have hsplit : A ++ ('x' :: ' ' :: (S ++ (' ' :: (B ++ (' ' :: '=' :: ' ' ::
      (C ++ ('x' :: ' ' :: (T ++ (' ' :: D))))))))) =
      (A ++ ('x' :: ' ' :: (S ++ (' ' :: (B ++ [' ']))))) ++
        '=' :: (' ' :: (C ++ ('x' :: ' ' :: (T ++ (' ' :: D))))) := by
    simp [List.append_assoc]
  have hleft : ∀ c, plainChar c = false → c ≠ 'x' → c ≠ ' ' → c ≠ '+' → c ≠ '-' →
      c ∉ A ++ ('x' :: ' ' :: (S ++ (' ' :: (B ++ [' '])))) := by
    intro c hc h1 h2 h3 h4 hm
    simp only [List.mem_append, List.mem_cons, List.not_mem_nil, or_false] at hm
    rcases hm with h | h | h | h | h | h | h
    · exact hA.not_mem hc h
    · exact h1 h
    · exact h2 h
    · rcases hSp c h with e | e
      · exact h3 e
      · exact h4 e
    · exact h2 h
    · exact hB.not_mem hc h
    · exact h2 h
  have hright : ∀ c, plainChar c = false → c ≠ 'x' → c ≠ ' ' → c ≠ '+' → c ≠ '-' →
      c ∉ ' ' :: (C ++ ('x' :: ' ' :: (T ++ (' ' :: D)))) := by
    intro c hc h1 h2 h3 h4 hm
    simp only [List.mem_append, List.mem_cons] at hm
    rcases hm with h | h | h | h | h | h | h
    · exact h2 h
    · exact hC.not_mem hc h
    · exact h1 h
    · exact h2 h
    · rcases hTp c h with e | e
      · exact h3 e
      · exact h4 e
    · exact h2 h
    · exact hD.not_mem hc h
  have hl := hleft '=' (by decide) (by decide) (by decide) (by decide) (by decide)
  have hr := hright '=' (by decide) (by decide) (by decide) (by decide) (by decide)
  have hopen : '(' ∉ (A ++ ('x' :: ' ' :: (S ++ (' ' :: (B ++ [' ']))))) ++
      '=' :: (' ' :: (C ++ ('x' :: ' ' :: (T ++ (' ' :: D))))) := by
    intro hm
    rcases List.mem_append.mp hm with h | h
    · exact hleft '(' (by decide) (by decide) (by decide) (by decide) (by decide) h
    · rcases List.mem_cons.mp h with h | h
      · exact absurd h (by decide)
      · exact hright '(' (by decide) (by decide) (by decide) (by decide) (by decide) h
  have hxl : 'x' ∈ A ++ ('x' :: ' ' :: (S ++ (' ' :: (B ++ [' '])))) := by simp
  have hxr : 'x' ∈ ' ' :: (C ++ ('x' :: ' ' :: (T ++ (' ' :: D)))) := by simp
  rw [hsplit]
  unfold classify
  rw [(includes_singleton_false '(' _).mpr hopen, bothSidesHaveX_split _ _ hl hr]
  simp only [Bool.false_and, Bool.false_eq_true, if_false, hxl, hxr, decide_True, Bool.and_self]
  rfl

theorem classify_bracket_text (A B : List Char) (h : ')' ∈ B) :
    classify (A ++ ('(' :: B)) = .ok .bracket := by
  unfold classify
  have h1 : includes ['('] (A ++ ('(' :: B)) = true := by
    rw [includes_singleton]; simp
  have h2 : includes [')'] (A ++ ('(' :: B)) = true := by
    rw [includes_singleton]; simp [h]
  simp only [h1, h2, Bool.and_self, if_true]
  rfl

/-- How the steps follow from the case selected. -/
theorem caseSteps_eq_classify (steps : List Step) (s : List Char) :
    caseSteps steps s =
      match classify s with
      | .error e => .error e
      | .ok .bracket =>
        (match regexMatch bracketRe s with
        | some m => bracketSteps steps m
        | none => .ok steps)
      | .ok .twoSided => .ok (steps ++
          [⟨"text", "步驟 1: 將含 x 的項移到等號左邊"⟩,
           ⟨"math", render ((split '=' s)[0]?) ++ " = " ++ render ((split '=' s)[1]?)⟩,
           ⟨"text", "步驟 2: 將常數項移到等號右邊"⟩,
           ⟨"text", "步驟 3: 合併同類項"⟩,
           ⟨"text", "步驟 4: 將 x 的係數移到等號右邊 (兩邊同除以係數)"⟩])
      | .ok .twoStep => twoStepSteps steps s
      | .ok .singleMultiplicative => .ok (singleStepSteps steps s)
      | .ok .singleAdditive => .ok (singleStepSteps steps s) := by
  unfold classify caseSteps
  cases h1 : (includes ['('] s && includes [')'] s)
  · simp only [Bool.false_eq_true, if_false]
    cases hb : bothSidesHaveX s with
    | error e => rfl
    | ok v =>
      cases v with
      | true => rfl
      | false =>
        simp only []
        cases h3 : ((includes ['+'] s || includes ['-'] s) &&
            ((regexMatch coefficientRe s).isSome || (regexMatch fracXRe s).isSome))
        · simp only [Bool.false_eq_true, if_false]
          cases h4 : ((regexMatch coefficientRe s).isSome || (regexMatch fracXRe s).isSome)
          · simp only [Bool.false_eq_true, if_false]; rfl
          · simp only [if_true]; rfl
        · simp only [if_true]; rfl
  · simp only [if_true]; rfl

/-! ## The text of the generated equations -/

theorem plain_integer_finite :
    ∀ k ∈ List.range 41, Plain (toString ((k : Int) - 20)).data ∧
      ((toString ((k : Int) - 20)).data.getLast?.any isDigit) = true := by
  decide!

theorem plain_integer (n : Int) (h1 : -20 ≤ n) (h2 : n ≤ 20) :
    Plain (toString n).data ∧ ∃ pre d, (toString n).data = pre ++ [d] ∧ isDigit d = true := by
  have hk : (n + 20).toNat ∈ List.range 41 := by
    rw [List.mem_range]; omega
  have e : (((n + 20).toNat : Int) - 20) = n := by omega
  have := plain_integer_finite _ hk
  rw [e] at this
  refine ⟨this.1, ?_⟩
  cases hl : (toString n).data.getLast? with
  | none => rw [hl] at this; simp at this
  | some d =>
    rw [hl] at this
    obtain ⟨pre, hpre⟩ := List.getLast?_eq_some_iff.mp hl
    exact ⟨pre, d, hpre, by simpa using this.2⟩

theorem plain_fraction_finite :
    ∀ i ∈ List.range 11, ∀ j ∈ List.range 5,
      Plain (Fraction.toEquationString (Fraction.simplify ⟨(i : Int) - 5, (j : Int) + 1⟩)).data := by
  decide!

theorem Fraction.IsFractionIn5.plainText {c : Fraction} (h : c.IsFractionIn5) :
    Plain c.toEquationString.data := by
  obtain ⟨n, d, h1, h2, h3, h4, rfl⟩ := h
  have hi : (n + 5).toNat ∈ List.range 11 := by rw [List.mem_range]; omega
  have hj : (d - 1).toNat ∈ List.range 5 := by rw [List.mem_range]; omega
  have e1 : (((n + 5).toNat : Int) - 5) = n := by omega
  have e2 : (((d - 1).toNat : Int) + 1) = d := by omega
  have := plain_fraction_finite _ hi _ hj
  rw [e1, e2] at this
  exact this

theorem Fraction.IsIntegerIn.toEquationString_eq {min max : Int} {a : Fraction}
    (h : a.IsIntegerIn min max) : a.toEquationString = ToString.toString a.numerator := by
  rw [h.eq_mk]
  exact toEquationString_integer _

theorem Fraction.IsIntegerIn.plain {min max : Int} {a : Fraction} (h : a.IsIntegerIn min max)
    (hmin : -20 ≤ min) (hmax : max ≤ 20) :
    Plain a.toEquationString.data ∧
      ∃ pre d, a.toEquationString.data = pre ++ [d] ∧ isDigit d = true := by
  rw [h.toEquationString_eq]
  exact plain_integer _ (le_trans hmin h.2.1) (le_trans h.2.2 hmax)

theorem plain_natAbs (n : Int) (h1 : -20 ≤ n) (h2 : n ≤ 20) :
    Plain (Fraction.toEquationString ⟨(n.natAbs : Int), 1⟩).data := by
  rw [toEquationString_integer]
  exact (plain_integer _ (by omega) (by omega)).1

theorem sign_data (n : Int) :
    (if n ≥ 0 then "+" else "-").data = ['+'] ∨ (if n ≥ 0 then "+" else "-").data = ['-'] := by
  by_cases h : n ≥ 0
  · left; rw [if_pos h]
  · right; rw [if_neg h]

theorem Gen.Ensures.and {α : Type} {x : Gen α} {tape : List ℚ} {P Q : α → Prop}
    (h1 : x.Ensures tape P) (h2 : x.Ensures tape Q) : x.Ensures tape (fun a => P a ∧ Q a) := by
  unfold Gen.Ensures at h1 h2 ⊢
  cases hxt : x tape with
  | ok v =>
    obtain ⟨a, rest⟩ := v
    rw [hxt] at h1 h2
    exact ⟨⟨h1.1, h2.1⟩, h1.2⟩
  | throw m => rw [hxt] at h1; exact h1.elim
  | starved => trivial

theorem Fraction.IsIntegerIn.isFractionIn5 {a : Fraction} (h : a.IsIntegerIn (-5) 5) :
    a.IsFractionIn5 := by
  refine ⟨a.numerator, 1, h.2.1, h.2.2, le_refl _, by decide, ?_⟩
  have := Fraction.new_ok a.numerator 1 one_ne_zero
  rw [Fraction.new_one] at this
  injection this with this
  rw [← this]
  exact h.eq_mk

theorem getRandomFraction_ensures5 (tape : List ℚ) (hv : ValidTape tape) :
    (getRandomFraction (-5) 5 false).Ensures tape Fraction.IsFractionIn5 := by
  unfold Gen.Ensures
  rw [getRandomFraction_false_eq]
  match tape, hv with
  | [], _ => trivial
  | [_], _ => trivial
  | r :: r2 :: t, hv =>
    have hok1 : getRandomInt (-5) 5 (r :: r2 :: t) =
        .ok (⌊r * ((5 - -5 + 1 : Int) : ℚ)⌋ + -5, r2 :: t) := rfl
    have h1 := (getRandomInt_ensures (-5) 5 (by decide) (r :: r2 :: t) hv).of_ok hok1
    have hok : getRandomInt 1 5 (r2 :: t) = .ok (⌊r2 * ((5 - 1 + 1 : Int) : ℚ)⌋ + 1, t) := rfl
    have h2 := (getRandomInt_ensures 1 5 (by decide) (r2 :: t) hv.tail).of_ok hok
    have hd : ⌊r2 * ((5 - 1 + 1 : Int) : ℚ)⌋ + 1 ≠ 0 := by
      have := h2.1.1
      omega
    simp only [Fraction.new_ok _ _ hd]
    exact ⟨⟨_, _, h1.1.1, h1.1.2, h2.1.1, h2.1.2, rfl⟩, h2.2⟩

theorem whileEquals_ensures5 (a : Fraction) :
    ∀ (n : Nat) (tape : List ℚ), tape.length ≤ n → ∀ c : Fraction, c.IsFractionIn5 →
      ValidTape tape →
      Gen.Ensures (whileEquals a c) tape Fraction.IsFractionIn5 := by
  intro n
  induction n with
  | zero =>
    intro tape hl c hc hv
    have ht : tape = [] := List.length_eq_zero.mp (Nat.le_zero.mp hl)
    subst ht
    unfold Gen.Ensures
    rw [whileEquals_eq]
    by_cases he : a.equals c = true
    · simp only [he, if_true]
      rw [getRandomFraction_false_eq]
      trivial
    · simp only [he]
      exact ⟨hc, hv⟩
  | succ n ih =>
    intro tape hl c hc hv
    unfold Gen.Ensures
    rw [whileEquals_eq]
    by_cases he : a.equals c = true
    · simp only [he, if_true]
      have hg := getRandomFraction_ensures5 tape hv
      cases hgt : getRandomFraction (-5) 5 false tape with
      | ok v =>
        obtain ⟨next, rest⟩ := v
        have hok := hg.of_ok hgt
        have hlen := getRandomFraction_ok_length (-5) 5 tape rest next hgt
        exact ih rest (by omega) next hok.1 hok.2
      | throw m => exact hg.not_throw m hgt
      | starved => trivial
    · simp only [he]
      exact ⟨hc, hv⟩

/-- The text of a level-3 equation and the ranges of its coefficients. -/
theorem generateEquation_level3_text (tape : List ℚ) (hv : ValidTape tape) :
    (generateEquation 3).Ensures tape (fun p => ∃ a b c, p.2 = .level3 a b c ∧
      a.IsIntegerIn (-5) 5 ∧ a.numerator ≠ 0 ∧ b.IsIntegerIn (-10) 10 ∧
      c.IsIntegerIn (-20) 20 ∧
      p.1.equation = a.toEquationString ++ "x " ++ (if b.numerator ≥ 0 then "+" else "-") ++
        " " ++ (Fraction.mk (b.numerator.natAbs : Int) 1).toEquationString ++ " = " ++
        c.toEquationString) := by
  rw [generateEquation, if_neg (by decide), if_neg (by decide), if_pos rfl]
  refine Gen.Ensures.bind (getRandomInteger_ensures _ _ (by decide) tape hv) ?_
  intro a0 t1 ha0 hv1
  refine Gen.Ensures.bind (whileNumeratorZero_ensures _ _ (by decide) t1 a0 ha0 hv1) ?_
  intro a t2 ha hv2
  refine Gen.Ensures.bind (getRandomInteger_ensures _ _ (by decide) t2 hv2) ?_
  intro b t3 hb hv3
  refine Gen.Ensures.bind (getRandomInteger_ensures _ _ (by decide) t3 hv3) ?_
  intro c t4 hc hv4
  have habs : Fraction.new (b.numerator.natAbs : Int) b.denominator
      = .ok ⟨(b.numerator.natAbs : Int), 1⟩ := by rw [hb.1, Fraction.new_one]
  refine Gen.Ensures.bind
    (Gen.Ensures.ofExcept habs (P := fun x => x = ⟨(b.numerator.natAbs : Int), 1⟩) rfl hv4) ?_
  intro absB t5 habsB hv5
  subst habsB
  obtain ⟨r1, h1, c1, -⟩ := Fraction.subtract_spec c b hc.canonical hb.canonical
  obtain ⟨ans, hans, -, -⟩ := Fraction.divide_spec r1 a c1 ha.1.canonical ha.2
  have hans2 : (do (← c.subtract b).divide a) = .ok ans := by
    rw [h1]
    exact hans
  refine Gen.Ensures.bind (Gen.Ensures.ofExcept hans2 (P := fun _ => True) trivial hv5) ?_
  intro x t6 _ hv6
  exact Gen.Ensures.pure ⟨a, b, c, rfl, ha.1, ha.2, hb, hc, rfl⟩ hv6

/-- The text of a level-4 equation and the ranges of its coefficients. -/
theorem generateEquation_level4_text (tape : List ℚ) (hv : ValidTape tape) :
    (generateEquation 4).Ensures tape (fun p => ∃ a b c d, p.2 = .level4 a b c d ∧
      a.IsIntegerIn (-5) 5 ∧ b.IsIntegerIn (-10) 10 ∧ c.IsFractionIn5 ∧
      d.IsIntegerIn (-10) 10 ∧
      p.1.equation = a.toEquationString ++ "x " ++ (if b.numerator ≥ 0 then "+" else "-") ++
        " " ++ (Fraction.mk (b.numerator.natAbs : Int) 1).toEquationString ++ " = " ++
        c.toEquationString ++ "x " ++ (if d.numerator ≥ 0 then "+" else "-") ++ " " ++
        (Fraction.mk (d.numerator.natAbs : Int) 1).toEquationString) := by
  rw [generateEquation, if_neg (by decide), if_neg (by decide), if_neg (by decide), if_pos rfl]
  refine Gen.Ensures.bind (getRandomInteger_ensures _ _ (by decide) tape hv) ?_
  intro a t1 ha hv1
  refine Gen.Ensures.bind (getRandomInteger_ensures _ _ (by decide) t1 hv1) ?_
  intro b t2 hb hv2
  refine Gen.Ensures.bind (getRandomInteger_ensures _ _ (by decide) t2 hv2) ?_
  intro c0 t3 hc0 hv3
  refine Gen.Ensures.bind (getRandomInteger_ensures _ _ (by decide) t3 hv3) ?_
  intro d t4 hd hv4
  refine Gen.Ensures.bind
    ((whileEquals_ensures a t4.length t4 le_rfl c0 hc0.canonical hv4).and
      (whileEquals_ensures5 a t4.length t4 le_rfl c0 hc0.isFractionIn5 hv4)) ?_
  intro c t5 hc hv5
  have habs : Fraction.new (b.numerator.natAbs : Int) b.denominator
      = .ok ⟨(b.numerator.natAbs : Int), 1⟩ := by rw [hb.1, Fraction.new_one]
  refine Gen.Ensures.bind
    (Gen.Ensures.ofExcept habs (P := fun x => x = ⟨(b.numerator.natAbs : Int), 1⟩) rfl hv5) ?_
  intro absB4 t6 habsB hv6
  subst habsB
  have habsd : Fraction.new (d.numerator.natAbs : Int) d.denominator
      = .ok ⟨(d.numerator.natAbs : Int), 1⟩ := by rw [hd.1, Fraction.new_one]
  refine Gen.Ensures.bind
    (Gen.Ensures.ofExcept habsd (P := fun x => x = ⟨(d.numerator.natAbs : Int), 1⟩) rfl hv6) ?_
  intro absD t7 habsD hv7
  subst habsD
  obtain ⟨r1, h1, c1, -⟩ := Fraction.subtract_spec d b hd.canonical hb.canonical
  obtain ⟨r2, h2, c2, v2⟩ := Fraction.subtract_spec a c ha.canonical hc.1.1
  have hne : a.value - c.value ≠ 0 := fun h =>
    hc.1.2 (Fraction.Canonical.eq_of_value ha.canonical hc.1.1 (sub_eq_zero.mp h))
  have hr2 : r2.numerator ≠ 0 := (c2.numerator_ne_zero_iff).mpr (by rw [v2]; exact hne)
  obtain ⟨ans, hans, -, -⟩ := Fraction.divide_spec r1 r2 c1 c2 hr2
  have hans2 : (do (← d.subtract b).divide (← a.subtract c)) = .ok ans := by
    rw [h1, h2]
    exact hans
  refine Gen.Ensures.bind (Gen.Ensures.ofExcept hans2 (P := fun _ => True) trivial hv7) ?_
  intro x t8 _ hv8
  exact Gen.Ensures.pure ⟨a, b, c, d, rfl, ha, hb, hc.2, hd, rfl⟩ hv8

/-- The text of a level-5 equation and the ranges of its coefficients. -/
theorem generateEquation_level5_text (tape : List ℚ) (hv : ValidTape tape) :
    (generateEquation 5).Ensures tape (fun p => ∃ a b c d, p.2 = .level5 a b c d ∧
      a.IsIntegerIn (-3) 3 ∧ a.numerator ≠ 0 ∧ b.IsIntegerIn (-5) 5 ∧ b.numerator ≠ 0 ∧
      c.IsIntegerIn (-10) 10 ∧ d.IsIntegerIn (-20) 20 ∧
      p.1.equation = a.toEquationString ++ "(" ++ b.toEquationString ++ "x " ++
        (if c.numerator ≥ 0 then "+" else "-") ++ " " ++
        (Fraction.mk (c.numerator.natAbs : Int) 1).toEquationString ++ ") = " ++
        d.toEquationString) := by
  rw [generateEquation, if_neg (by decide), if_neg (by decide), if_neg (by decide),
    if_neg (by decide), if_pos rfl]
  refine Gen.Ensures.bind (getRandomInteger_ensures _ _ (by decide) tape hv) ?_
  intro a0 t1 ha0 hv1
  refine Gen.Ensures.bind (whileNumeratorZero_ensures _ _ (by decide) t1 a0 ha0 hv1) ?_
  intro a t2 ha hv2
  refine Gen.Ensures.bind (getRandomInteger_ensures _ _ (by decide) t2 hv2) ?_
  intro b0 t3 hb0 hv3
  refine Gen.Ensures.bind (whileNumeratorZero_ensures _ _ (by decide) t3 b0 hb0 hv3) ?_
  intro b t4 hb hv4
  refine Gen.Ensures.bind (getRandomInteger_ensures _ _ (by decide) t4 hv4) ?_
  intro c t5 hc hv5
  refine Gen.Ensures.bind (getRandomInteger_ensures _ _ (by decide) t5 hv5) ?_
  intro d t6 hd hv6
  have hav : a.value ≠ 0 := (ha.1.canonical.numerator_ne_zero_iff).mp ha.2
  have hbv : b.value ≠ 0 := (hb.1.canonical.numerator_ne_zero_iff).mp hb.2
  have habs : Fraction.new (c.numerator.natAbs : Int) c.denominator
      = .ok ⟨(c.numerator.natAbs : Int), 1⟩ := by rw [hc.1, Fraction.new_one]
  refine Gen.Ensures.bind
    (Gen.Ensures.ofExcept habs (P := fun x => x = ⟨(c.numerator.natAbs : Int), 1⟩) rfl hv6) ?_
  intro absC t7 habsC hv7
  subst habsC
  obtain ⟨r1, h1, c1, -⟩ := Fraction.multiply_spec a c ha.1.canonical hc.canonical
  obtain ⟨r2, h2, c2, -⟩ := Fraction.subtract_spec d r1 hd.canonical c1
  obtain ⟨r3, h3, c3, v3⟩ := Fraction.multiply_spec a b ha.1.canonical hb.1.canonical
  have hr3 : r3.numerator ≠ 0 :=
    (c3.numerator_ne_zero_iff).mpr (by rw [v3]; exact mul_ne_zero hav hbv)
  obtain ⟨ans, hans, -, -⟩ := Fraction.divide_spec r2 r3 c2 c3 hr3
  have hans2 : (do (← d.subtract (← a.multiply c)).divide (← a.multiply b)) = .ok ans := by
    rw [h1]
    show (do (← d.subtract r1).divide (← a.multiply b)) = .ok ans
    rw [h2, h3]
    exact hans
  refine Gen.Ensures.bind (Gen.Ensures.ofExcept hans2 (P := fun _ => True) trivial hv7) ?_
  intro x t8 _ hv8
  exact Gen.Ensures.pure ⟨a, b, c, d, rfl, ha.1, ha.2, hb.1, hb.2, hc, hd, rfl⟩ hv8

/-! ## The case selected for a generated equation -/

theorem classify_level3 (a b c : Fraction) (ha : a.IsIntegerIn (-5) 5)
    (hb : b.IsIntegerIn (-10) 10) (hc : c.IsIntegerIn (-20) 20) :
    classify (a.toEquationString ++ "x " ++ (if b.numerator ≥ 0 then "+" else "-") ++
        " " ++ (Fraction.mk (b.numerator.natAbs : Int) 1).toEquationString ++ " = " ++
        c.toEquationString).data = .ok .twoStep := by
  have hA := ha.plain (by decide) (by decide)
  have hB := plain_natAbs b.numerator (by have := hb.2.1; omega) (by have := hb.2.2; omega)
  have hC := hc.plain (by decide) (by decide)
  have := classify_twoStep_text _ _ _ _ hA.1 hB hC.1 (sign_data b.numerator) hA.2
  simp only [String.data_append, List.append_assoc]
  exact this

theorem classify_level4 (a b c d : Fraction) (ha : a.IsIntegerIn (-5) 5)
    (hb : b.IsIntegerIn (-10) 10) (hc : c.IsFractionIn5) (hd : d.IsIntegerIn (-10) 10) :
    classify (a.toEquationString ++ "x " ++ (if b.numerator ≥ 0 then "+" else "-") ++
        " " ++ (Fraction.mk (b.numerator.natAbs : Int) 1).toEquationString ++ " = " ++
        c.toEquationString ++ "x " ++ (if d.numerator ≥ 0 then "+" else "-") ++ " " ++
        (Fraction.mk (d.numerator.natAbs : Int) 1).toEquationString).data = .ok .twoSided := by
  have hA := ha.plain (by decide) (by decide)
  have hB := plain_natAbs b.numerator (by have := hb.2.1; omega) (by have := hb.2.2; omega)
  have hD := plain_natAbs d.numerator (by have := hd.2.1; omega) (by have := hd.2.2; omega)
  have := classify_twoSided_text _ _ _ _ _ _ hA.1 hB hc.plainText hD (sign_data b.numerator)
    (sign_data d.numerator)
  simp only [String.data_append, List.append_assoc]
  exact this

theorem classify_level5 (A B C D E : String) :
    classify (A ++ "(" ++ B ++ "x " ++ C ++ " " ++ D ++ ") = " ++ E).data = .ok .bracket := by
  have := classify_bracket_text A.data
    (B.data ++ ('x' :: ' ' :: (C.data ++ (' ' :: (D.data ++ (')' :: ' ' :: '=' :: ' ' :: E.data))))))
    (by simp)
  simp only [String.data_append, List.append_assoc]
  exact this

/-- C19: for every equation `generateEquation` produces at level 3, 4 or 5 the chain of tests of
`generateSolution` selects the case written for that level: the two-step case at level 3, the
case of `x` on both sides at level 4, the bracket case at level 5; the steps are then the steps
of that case. -/
theorem generated_text_selects_its_case (level : Int) (tape rest : List ℚ)
    (hv : ValidTape tape) (eq : Equation) (s : Sampled)
    (h : generateEquation level tape = .ok ((eq, s), rest)) :
    (level = 3 → classify eq.equation.data = .ok .twoStep ∧
      ∀ steps, caseSteps steps eq.equation.data = twoStepSteps steps eq.equation.data) ∧
    (level = 4 → classify eq.equation.data = .ok .twoSided ∧
      ∀ steps, caseSteps steps eq.equation.data = .ok (steps ++
        [⟨"text", "步驟 1: 將含 x 的項移到等號左邊"⟩,
         ⟨"math", render ((split '=' eq.equation.data)[0]?) ++ " = " ++
           render ((split '=' eq.equation.data)[1]?)⟩,
         ⟨"text", "步驟 2: 將常數項移到等號右邊"⟩,
         ⟨"text", "步驟 3: 合併同類項"⟩,
         ⟨"text", "步驟 4: 將 x 的係數移到等號右邊 (兩邊同除以係數)"⟩])) ∧
    (level = 5 → classify eq.equation.data = .ok .bracket ∧
      ∀ steps, caseSteps steps eq.equation.data =
        match regexMatch bracketRe eq.equation.data with
        | some m => bracketSteps steps m
        | none => .ok steps) := by
  refine ⟨?_, ?_, ?_⟩
  · rintro rfl
    obtain ⟨⟨a, b, c, -, ha, -, hb, hc, ht⟩, -⟩ := (generateEquation_level3_text tape hv).of_ok h
    simp only at ht
    have hcl := classify_level3 a b c ha hb hc
    rw [← ht] at hcl
    refine ⟨hcl, fun steps => ?_⟩
    rw [caseSteps_eq_classify, hcl]
  · rintro rfl
    obtain ⟨⟨a, b, c, d, -, ha, hb, hc, hd, ht⟩, -⟩ :=
      (generateEquation_level4_text tape hv).of_ok h
    simp only at ht
    have hcl := classify_level4 a b c d ha hb hc hd
    rw [← ht] at hcl
    refine ⟨hcl, fun steps => ?_⟩
    rw [caseSteps_eq_classify, hcl]
  · rintro rfl
    obtain ⟨⟨a, b, c, d, -, -, -, -, -, -, -, ht⟩, -⟩ :=
      (generateEquation_level5_text tape hv).of_ok h
    simp only at ht
    have hcl := classify_level5 a.toEquationString b.toEquationString
      (if c.numerator ≥ 0 then "+" else "-")
      (Fraction.mk (c.numerator.natAbs : Int) 1).toEquationString d.toEquationString
    rw [← ht] at hcl
    refine ⟨hcl, fun steps => ?_⟩
    rw [caseSteps_eq_classify, hcl]

/-- Witness for C19: level 4 with draws giving `2x + 3 = 2x - 4` first, the second `2`
resampled to 3/2: the text `2x + 3 = \frac{3}{2}x - 4` takes the case of `x` on both sides. -/
theorem generated_text_selects_its_case_witness :
    generateEquation 4 [0.7, 0.65, 0.7, 0.3, 0.75, 0.3] =
      .ok ((⟨"2x + 3 = \\frac\x7b3\x7d\x7b2\x7dx - 4", ⟨-14, 1⟩⟩,
        .level4 ⟨2, 1⟩ ⟨3, 1⟩ ⟨3, 2⟩ ⟨-4, 1⟩), []) ∧
    classify "2x + 3 = \\frac\x7b3\x7d\x7b2\x7dx - 4".data = .ok .twoSided :=
  ⟨by decide!,
    ((generated_text_selects_its_case 4 [0.7, 0.65, 0.7, 0.3, 0.75, 0.3] [] (by decide!)
      ⟨"2x + 3 = \\frac\x7b3\x7d\x7b2\x7dx - 4", ⟨-14, 1⟩⟩
      (.level4 ⟨2, 1⟩ ⟨3, 1⟩ ⟨3, 2⟩ ⟨-4, 1⟩) (by decide!)).2.1 rfl).1⟩

/-! ## The steps of the single-step cases -/

theorem generateSolution_ok_of_caseSteps (equationObj : Equation) (steps : List Step)
    (h : caseSteps [⟨"text", "原始方程式:"⟩, ⟨"math", String.mk equationObj.equation.data⟩]
      equationObj.equation.data = .ok steps) :
    generateSolution equationObj = .ok (steps ++
      [⟨"text", "最終答案:"⟩, ⟨"math", "x = " ++ equationObj.answer.toEquationString⟩]) := by
  unfold generateSolution
  simp only [h]
  rfl

/-- The steps of the chain of tests on every level-1 text with `a` from 0 to 10 and `b` from
-10 to 10, both forms, evaluated one by one. -/
theorem caseSteps_level1_nonnegative :
    ∀ k ∈ List.range 11, ∀ j ∈ List.range 21,
      (let text := "x + " ++ toString (k : Int) ++ " = " ++ toString ((j : Int) - 10)
       caseSteps [⟨"text", "原始方程式:"⟩, ⟨"math", String.mk text.data⟩] text.data = .ok
         [⟨"text", "原始方程式:"⟩, ⟨"math", text⟩,
          ⟨"text", "步驟 1: 將常數項移到等號右邊 (兩邊同減)"⟩,
          ⟨"math", "x + " ++ toString (k : Int) ++ " = " ++ toString ((j : Int) - 10)⟩,
          ⟨"math", "x = " ++ toString ((j : Int) - 10) ++ " - " ++ toString (k : Int)⟩]) ∧
      (let text := "x - " ++ toString (k : Int) ++ " = " ++ toString ((j : Int) - 10)
       caseSteps [⟨"text", "原始方程式:"⟩, ⟨"math", String.mk text.data⟩] text.data = .ok
         [⟨"text", "原始方程式:"⟩, ⟨"math", text⟩,
          ⟨"text", "步驟 1: 將常數項移到等號右邊 (兩邊同加)"⟩,
          ⟨"math", "x - " ++ toString (k : Int) ++ " = " ++ toString ((j : Int) - 10)⟩,
          ⟨"math", "x = " ++ toString ((j : Int) - 10) ++ " + " ++ toString (k : Int)⟩]) := by
  decide!

/-- C20: for every level-1 equation whose sampled `a` is not negative, `generateSolution`
returns exactly seven steps: the original-equation narration, the equation text, the step
narration, `x + a = b` (or `x - a = b`), the inversion `x = b - a` (or `x = b + a`), the
final-answer narration and `x = ` followed by the answer's markup. -/
theorem level1_solution_has_seven_steps (tape rest : List ℚ) (hv : ValidTape tape)
    (eq : Equation) (a b : Fraction) (op : String)
    (h : generateEquation 1 tape = .ok ((eq, .level1 a b op), rest))
    (ha : 0 ≤ a.numerator) :
    (op = "+" ∧
      eq.equation = "x + " ++ toString a.numerator ++ " = " ++ toString b.numerator ∧
      generateSolution eq = .ok
        [⟨"text", "原始方程式:"⟩, ⟨"math", eq.equation⟩,
         ⟨"text", "步驟 1: 將常數項移到等號右邊 (兩邊同減)"⟩,
         ⟨"math", "x + " ++ toString a.numerator ++ " = " ++ toString b.numerator⟩,
         ⟨"math", "x = " ++ toString b.numerator ++ " - " ++ toString a.numerator⟩,
         ⟨"text", "最終答案:"⟩, ⟨"math", "x = " ++ eq.answer.toEquationString⟩]) ∨
    (op = "-" ∧
      eq.equation = "x - " ++ toString a.numerator ++ " = " ++ toString b.numerator ∧
      generateSolution eq = .ok
        [⟨"text", "原始方程式:"⟩, ⟨"math", eq.equation⟩,
         ⟨"text", "步驟 1: 將常數項移到等號右邊 (兩邊同加)"⟩,
         ⟨"math", "x - " ++ toString a.numerator ++ " = " ++ toString b.numerator⟩,
         ⟨"math", "x = " ++ toString b.numerator ++ " + " ++ toString a.numerator⟩,
         ⟨"text", "最終答案:"⟩, ⟨"math", "x = " ++ eq.answer.toEquationString⟩]) := by
  obtain ⟨⟨a2, b2, op2, hs, hia, hib, htext⟩, -⟩ := (generateEquation_level1_text tape hv).of_ok h
  simp only [Sampled.level1.injEq] at hs
  obtain ⟨rfl, rfl, rfl⟩ := hs
  have hak : a.numerator.toNat ∈ List.range 11 := by
    rw [List.mem_range]; have := hia.2.2; omega
  have hbj : (b.numerator + 10).toNat ∈ List.range 21 := by
    rw [List.mem_range]; have := hib.2.1; have := hib.2.2; omega
  have hfin := caseSteps_level1_nonnegative _ hak _ hbj
  have e1 : ((a.numerator.toNat : Nat) : Int) = a.numerator := by omega
  have e2 : (((b.numerator + 10).toNat : Int) - 10) = b.numerator := by
    have := hib.2.1; omega
  rw [e1, e2] at hfin
  have hta := hia.toEquationString_eq
  have htb := hib.toEquationString_eq
  rcases htext with ⟨hop, ht⟩ | ⟨hop, ht⟩
  · left
    rw [if_neg (not_lt.mpr ha), hta, htb] at ht
    refine ⟨hop, ht, ?_⟩
    have := generateSolution_ok_of_caseSteps eq _ (by rw [ht]; exact hfin.1)
    rw [this, ht]
    rfl
  · right
    rw [if_neg (not_lt.mpr ha), hta, htb] at ht
    refine ⟨hop, ht, ?_⟩
    have := generateSolution_ok_of_caseSteps eq _ (by rw [ht]; exact hfin.2)
    rw [this, ht]
    rfl

/-- Witness for C20: the draws 0.62, 0.81, 0.25 give `x + 3 = 7` with answer 4. -/
theorem level1_solution_has_seven_steps_witness :
    generateEquation 1 [0.62, 0.81, 0.25] =
      .ok ((⟨"x + 3 = 7", ⟨4, 1⟩⟩, .level1 ⟨3, 1⟩ ⟨7, 1⟩ "+"), []) ∧
    generateSolution ⟨"x + 3 = 7", ⟨4, 1⟩⟩ = .ok
      [⟨"text", "原始方程式:"⟩, ⟨"math", "x + 3 = 7"⟩,
       ⟨"text", "步驟 1: 將常數項移到等號右邊 (兩邊同減)"⟩,
       ⟨"math", "x + 3 = 7"⟩, ⟨"math", "x = 7 - 3"⟩,
       ⟨"text", "最終答案:"⟩, ⟨"math", "x = 4"⟩] :=
  ⟨by decide!,
    ((level1_solution_has_seven_steps [0.62, 0.81, 0.25] [] (by decide!)
      ⟨"x + 3 = 7", ⟨4, 1⟩⟩ ⟨3, 1⟩ ⟨7, 1⟩ "+" (by decide!) (by decide)).resolve_right
        (fun h => absurd h.1 (by decide))).2.2⟩

/-! ## The loop of fromDecimal -/

theorem Convergents.next_spec (decimal : ℚ) (hd : 0 < decimal) (s : Convergents)
    (hs : s.AtLoopHead decimal) :
    0 < s.next.k1 ∧ s.next.k2 = s.k1 ∧ s.k1 + s.k2 ≤ s.next.k1 ∧
    (s.next.h1 * s.next.k2 - s.next.h2 * s.next.k1 = 1 ∨
      s.next.h1 * s.next.k2 - s.next.h2 * s.next.k1 = -1) ∧
    (s.next.goesOn decimal → s.next.AtLoopHead decimal) := by
  obtain ⟨h1, h2, k1, k2, b⟩ := s
  obtain ⟨hval, hdet, hk, hcase⟩ := hs
  simp only at hval hdet hk hcase
  have hfl : ((⌊b⌋ : Int) : ℚ) ≤ b := Int.floor_le b
  have hfu : b < ((⌊b⌋ : Int) : ℚ) + 1 := Int.lt_floor_add_one b
  have hfloor : (k1 = 0 ∧ k2 = 1 ∧ 0 ≤ ⌊b⌋) ∨ (0 < k1 ∧ 0 ≤ k2 ∧ 1 ≤ ⌊b⌋) := by
    rcases hcase with ⟨e1, e2, hb⟩ | ⟨p1, p2, hb⟩
    · exact Or.inl ⟨e1, e2, Int.floor_nonneg.mpr hb.le⟩
    · exact Or.inr ⟨p1, p2, Int.le_floor.mpr (by exact_mod_cast hb.le)⟩
  show 0 < ⌊b⌋ * k1 + k2 ∧ k1 = k1 ∧ k1 + k2 ≤ ⌊b⌋ * k1 + k2 ∧
    ((⌊b⌋ * h1 + h2) * k1 - h1 * (⌊b⌋ * k1 + k2) = 1 ∨
      (⌊b⌋ * h1 + h2) * k1 - h1 * (⌊b⌋ * k1 + k2) = -1) ∧
    (Convergents.goesOn decimal
        ⟨⌊b⌋ * h1 + h2, h1, ⌊b⌋ * k1 + k2, k1, 1 / (b - ((⌊b⌋ : Int) : ℚ))⟩ →
      Convergents.AtLoopHead decimal
        ⟨⌊b⌋ * h1 + h2, h1, ⌊b⌋ * k1 + k2, k1, 1 / (b - ((⌊b⌋ : Int) : ℚ))⟩)
  generalize ⌊b⌋ = a at hfl hfu hfloor ⊢
  have hk1pos : 0 < a * k1 + k2 := by
    rcases hfloor with ⟨e1, e2, -⟩ | ⟨p1, p2, ha1⟩
    · subst e1 e2; simp
    · nlinarith
  have hgrow : k1 + k2 ≤ a * k1 + k2 := by
    rcases hfloor with ⟨e1, e2, -⟩ | ⟨p1, p2, ha1⟩
    · subst e1 e2; simp
    · nlinarith
  have hdet2 : (a * h1 + h2) * k1 - h1 * (a * k1 + k2) = 1 ∨
      (a * h1 + h2) * k1 - h1 * (a * k1 + k2) = -1 := by
    rcases hdet with h | h
    · right; linarith
    · left; linarith
  refine ⟨hk1pos, rfl, hgrow, hdet2, ?_⟩
  intro hgo
  obtain ⟨herr, hlt⟩ := hgo
  simp only at herr hlt
  have hk1q : (0 : ℚ) < ((a * k1 + k2 : Int) : ℚ) := by exact_mod_cast hk1pos
  obtain ⟨f, hf⟩ : ∃ f : ℚ, b = (a : ℚ) + f := ⟨b - a, by ring⟩
  have hfe : b - (a : ℚ) = f := by rw [hf]; ring
  rw [hfe]
  have hf0 : f ≠ 0 := by
    intro hz
    have hv : decimal * ((a * k1 + k2 : Int) : ℚ) = ((a * h1 + h2 : Int) : ℚ) := by
      push_cast
      rw [hf, hz, add_zero] at hval
      exact hval
    have hq : decimal - ((a * h1 + h2 : Int) : ℚ) / ((a * k1 + k2 : Int) : ℚ) = 0 := by
      rw [sub_eq_zero, eq_div_iff hk1q.ne']
      exact hv
    rw [hq, abs_zero] at herr
    have : 0 < decimal * tolerance := mul_pos hd (by norm_num [tolerance])
    linarith
  have hfpos : 0 < f := lt_of_le_of_ne (by linarith) (Ne.symm hf0)
  have hf1 : f < 1 := by linarith
  refine ⟨?_, hdet2, hlt, Or.inr ⟨hk1pos, ?_, ?_⟩⟩
  · show decimal * (1 / f * ((a * k1 + k2 : Int) : ℚ) + (k1 : ℚ)) =
      1 / f * ((a * h1 + h2 : Int) : ℚ) + (h1 : ℚ)
    rw [hf] at hval
    push_cast
    field_simp
    linear_combination hval
  · show 0 ≤ k1
    rcases hfloor with ⟨e1, -, -⟩ | ⟨p1, -, -⟩
    · omega
    · omega
  · show 1 < 1 / f
    rw [one_div]
    exact (one_lt_inv₀ hfpos).mpr hf1

theorem Convergents.initial_atLoopHead (decimal : ℚ) (hd : 0 < decimal) :
    Convergents.AtLoopHead decimal ⟨1, 0, 0, 1, decimal⟩ := by
  refine ⟨?_, Or.inl (by norm_num), by norm_num, Or.inl ⟨rfl, rfl, hd⟩⟩
  simp

/-- What holds of the locals when the loop is left. -/
theorem fromDecimalLoop_exit (decimal : ℚ) (hd : 0 < decimal) :
    ∀ (fuel : Nat) (s out : Convergents), s.AtLoopHead decimal →
      fromDecimalLoop decimal fuel s = some out →
      0 < out.k1 ∧ 0 ≤ out.k2 ∧ out.k2 < 10000 ∧
      (out.h1 * out.k2 - out.h2 * out.k1 = 1 ∨ out.h1 * out.k2 - out.h2 * out.k1 = -1) ∧
      ¬ out.goesOn decimal := by
  intro fuel
  induction fuel with
  | zero => intro s out _ h; simp [fromDecimalLoop] at h
  | succ n ih =>
    intro s out hs h
    obtain ⟨hpos, hk2, -, hdet, hnext⟩ := Convergents.next_spec decimal hd s hs
    rw [fromDecimalLoop] at h
    by_cases hgo : s.next.goesOn decimal
    · rw [if_pos hgo] at h
      exact ih s.next out (hnext hgo) h
    · rw [if_neg hgo] at h
      injection h with h
      subst h
      refine ⟨hpos, ?_, ?_, hdet, hgo⟩
      · rw [hk2]
        rcases hs.2.2.2 with ⟨e, -, -⟩ | ⟨p, -, -⟩ <;> omega
      · rw [hk2]
        exact hs.2.2.1

theorem fib_21 : Nat.fib 21 = 10946 := by decide

/-- The denominators grow at least like the Fibonacci numbers, so the test `k1 < 10000` fails
after at most 21 iterations. -/
theorem fromDecimalLoop_isSome (decimal : ℚ) (hd : 0 < decimal) :
    ∀ (fuel j : Nat) (s : Convergents), s.AtLoopHead decimal →
      (Nat.fib (j + 1) : Int) ≤ s.k1 → (Nat.fib j : Int) ≤ s.k2 → 20 ≤ j + fuel → 1 ≤ fuel →
      (fromDecimalLoop decimal fuel s).isSome = true := by
  intro fuel
  induction fuel with
  | zero => intro j s _ _ _ _ h; omega
  | succ n ih =>
    intro j s hs hb1 hb2 hj _
    obtain ⟨-, hk2, hgrow, -, hnext⟩ := Convergents.next_spec decimal hd s hs
    rw [fromDecimalLoop]
    by_cases hgo : s.next.goesOn decimal
    · rw [if_pos hgo]
      have hfib : (Nat.fib (j + 2) : Int) ≤ s.next.k1 := by
        rw [Nat.fib_add_two]
        push_cast
        omega
      have hlt : s.next.k1 < 10000 := hgo.2
      have hj18 : j + 2 < 21 := by
        by_contra hge
        have := Nat.fib_mono (Nat.le_of_not_lt hge)
        rw [fib_21] at this
        have : (10946 : Int) ≤ (Nat.fib (j + 2) : Int) := by exact_mod_cast this
        omega
      exact ih (j + 1) s.next (hnext hgo) hfib (by rw [hk2]; exact hb1) (by omega) (by omega)
    · rw [if_neg hgo]
      rfl

theorem fromDecimalLoop_more_fuel (decimal : ℚ) :
    ∀ (fuel : Nat) (s out : Convergents), fromDecimalLoop decimal fuel s = some out →
      ∀ more, fromDecimalLoop decimal (fuel + more) s = some out := by
  intro fuel
  induction fuel with
  | zero => intro s out h; simp [fromDecimalLoop] at h
  | succ n ih =>
    intro s out h more
    rw [fromDecimalLoop] at h
    rw [show n + 1 + more = (n + more) + 1 by omega, fromDecimalLoop]
    by_cases hgo : s.next.goesOn decimal
    · rw [if_pos hgo] at h ⊢
      exact ih s.next out h more
    · rw [if_neg hgo] at h ⊢
      exact h

/-- From the initial locals the loop is left within 21 iterations, with the same locals
whatever fuel beyond that it is given. -/
theorem fromDecimalLoop_returns (decimal : ℚ) (hd : 0 < decimal) :
    ∃ out, ∀ fuel, 21 ≤ fuel → fromDecimalLoop decimal fuel ⟨1, 0, 0, 1, decimal⟩ = some out := by
  have hinit := Convergents.initial_atLoopHead decimal hd
  have h21 : (fromDecimalLoop decimal 21 ⟨1, 0, 0, 1, decimal⟩).isSome = true := by
    obtain ⟨-, hk2, hgrow, -, hnext⟩ := Convergents.next_spec decimal hd _ hinit
    rw [fromDecimalLoop]
    by_cases hgo : (Convergents.next ⟨1, 0, 0, 1, decimal⟩).goesOn decimal
    · rw [if_pos hgo]
      refine fromDecimalLoop_isSome decimal hd 20 0 _ (hnext hgo) ?_ ?_ (by omega) (by omega)
      · simpa using hgrow
      · rw [hk2]; simp
    · rw [if_neg hgo]
      rfl
  obtain ⟨out, hout⟩ := Option.isSome_iff_exists.mp h21
  refine ⟨out, fun fuel hf => ?_⟩
  have := fromDecimalLoop_more_fuel decimal 21 _ out hout (fuel - 21)
  rwa [show 21 + (fuel - 21) = fuel by omega] at this

theorem Fraction.new_of_canonical (n d : Int) (h : Fraction.Canonical ⟨n, d⟩) :
    Fraction.new n d = .ok ⟨n, d⟩ := by
  obtain ⟨g, eg, cg, hg, -⟩ := Fraction.new_spec n d h.den_ne_zero
  rw [eg, Fraction.Canonical.eq_of_cross cg h hg]

theorem canonical_of_determinant (sign h1 h2 k1 k2 : Int) (hs : sign = 1 ∨ sign = -1)
    (hk : 0 < k1) (hdet : h1 * k2 - h2 * k1 = 1 ∨ h1 * k2 - h2 * k1 = -1) :
    Fraction.Canonical ⟨sign * h1, k1⟩ := by
  have hcop : IsCoprime h1 k1 := by
    rcases hdet with h | h
    · exact ⟨k2, -h2, by linarith⟩
    · exact ⟨-k2, h2, by linarith⟩
  have hg : Int.gcd h1 k1 = 1 := Int.isCoprime_iff_gcd_eq_one.mp hcop
  have habs : (sign * h1).natAbs = h1.natAbs := by
    rcases hs with rfl | rfl <;> simp
  have hgcd : Nat.gcd (sign * h1).natAbs k1.natAbs = 1 := by
    rw [habs]; exact hg
  refine ⟨hk, hgcd, ?_⟩
  intro hz
  simp only at hz
  have h0 : (sign * h1).natAbs = 0 := by rw [hz]; rfl
  rw [h0, Nat.gcd_zero_left] at hgcd
  show k1 = 1
  omega

/-! ## fromDecimal: the denominator returned and termination -/

theorem fromDecimal_eq_of_loop (fuel : Nat) (decimal : ℚ) (hd : decimal ≠ 0)
    (s : Convergents)
    (h : fromDecimalLoop |decimal| fuel ⟨1, 0, 0, 1, |decimal|⟩ = some s) :
    Fraction.fromDecimal fuel decimal =
      some (.ok ⟨(if 0 < decimal then 1 else -1) * s.h1, s.k1⟩) ∧
    0 ≤ s.k2 ∧ s.k2 < 10000 ∧ 0 < s.k1 ∧
    (|(|decimal|) - (s.h1 : ℚ) / (s.k1 : ℚ)| ≤ |decimal| * tolerance ∨ 10000 ≤ s.k1) := by
  have hpos : 0 < |decimal| := abs_pos.mpr hd
  obtain ⟨hk1, hk2, hk2lt, hdet, hstop⟩ := fromDecimalLoop_exit |decimal| hpos fuel _ s
    (Convergents.initial_atLoopHead |decimal| hpos) h
  have hsign : (if 0 < decimal then (1 : Int) else -1) = 1 ∨
      (if 0 < decimal then (1 : Int) else -1) = -1 := by
    by_cases hp : 0 < decimal
    · left; rw [if_pos hp]
    · right; rw [if_neg hp]
  have hcan := canonical_of_determinant _ s.h1 s.h2 s.k1 s.k2 hsign hk1 hdet
  refine ⟨?_, hk2, hk2lt, hk1, ?_⟩
  · unfold Fraction.fromDecimal
    rw [if_neg hd]
    simp only [h]
    rw [Fraction.new_of_canonical _ _ hcan]
  · unfold Convergents.goesOn at hstop
    by_cases hk : s.k1 < 10000
    · left
      by_contra hgt
      exact hstop ⟨not_le.mp hgt, hk⟩
    · right
      exact not_lt.mp hk

/-- C21, evaluated where it fails: level 5 with draws giving a = 2, b = 3, c = -1, d = 5
produces `2(3x - 1) = 5` with answer 7/6; the expansion step drops the sign of the constant
and joins the products with `+`: it reads `2 \cdot 3x + 2 \cdot 1 = 5`.  The answer satisfies
`2 * 3 * x + 2 * (-1) = 5`, the expansion of the left side, and not `2 * 3 * x + 2 * 1 = 5`,
what the step says. -/
theorem level5_expansion_drops_sign :
    generateEquation 5 [0.8, 0.8, 0.45, 0.62] =
      .ok ((⟨"2(3x - 1) = 5", ⟨7, 6⟩⟩, .level5 ⟨2, 1⟩ ⟨3, 1⟩ ⟨-1, 1⟩ ⟨5, 1⟩), []) ∧
    generateSolution ⟨"2(3x - 1) = 5", ⟨7, 6⟩⟩ = .ok
      [⟨"text", "原始方程式:"⟩, ⟨"math", "2(3x - 1) = 5"⟩,
       ⟨"text", "步驟 1: 使用分配律展開括號"⟩, ⟨"math", "2(3x - 1) = 5"⟩,
       ⟨"math", "2 \\cdot 3x + 2 \\cdot 1 = 5"⟩,
       ⟨"text", "步驟 2: 合併同類項"⟩,
       ⟨"text", "步驟 3: 將常數項移到等號右邊"⟩,
       ⟨"text", "步驟 4: 將 x 的係數移到等號右邊 (兩邊同除以係數)"⟩,
       ⟨"text", "最終答案:"⟩, ⟨"math", "x = \\frac\x7b7\x7d\x7b6\x7d"⟩] ∧
    (2 : ℚ) * 3 * Fraction.value ⟨7, 6⟩ + 2 * (-1) = 5 ∧
    (2 : ℚ) * 3 * Fraction.value ⟨7, 6⟩ + 2 * 1 ≠ 5 ∧
    generateSolution ⟨"2(3x + 1) = 5", ⟨1, 2⟩⟩ = .ok
      [⟨"text", "原始方程式:"⟩, ⟨"math", "2(3x + 1) = 5"⟩,
       ⟨"text", "步驟 1: 使用分配律展開括號"⟩, ⟨"math", "2(3x + 1) = 5"⟩,
       ⟨"math", "2 \\cdot 3x + 2 \\cdot 1 = 5"⟩,
       ⟨"text", "步驟 2: 合併同類項"⟩,
       ⟨"text", "步驟 3: 將常數項移到等號右邊"⟩,
       ⟨"text", "步驟 4: 將 x 的係數移到等號右邊 (兩邊同除以係數)"⟩,
       ⟨"text", "最終答案:"⟩, ⟨"math", "x = \\frac\x7b1\x7d\x7b2\x7d"⟩] :=
  ⟨by decide!, by decide!, by decide!, by decide!, by decide!⟩

end OneEquation
